import Mathlib

/-!
Shallow embedding of the checklist manager's core (models.py, checklist_view.py,
item_widget.py, xml_io.py) and verification of the specified properties.

Conventions:
- Python `str` becomes `String`, Python `int` becomes `Int`, Python floats that
  only ever hold exact decimal literals (click timing) become `ℚ`.
- In-place list mutation becomes explicit rebuilding: a Python helper that
  mutates `items` and returns `True`/`False` becomes a Lean function returning
  `Option (List ChecklistItem)` (`some` = mutated result, `none` = `False`).
-/

/-- models.py: `ChecklistState` dataclass (number, label, color, symbol, in_cycle). -/
structure ChecklistState where
  number : Int
  label : String
  color : String
  symbol : String
  in_cycle : Bool := true
deriving Repr, DecidableEq

/-- models.py: `DEFAULT_STATES`. -/
def DEFAULT_STATES : List ChecklistState :=
  [ ⟨-1, "Bullet", "#bbbbbb", "bullet", false⟩,
    ⟨0, "To Do", "#F44336", "empty", true⟩,
    ⟨1, "Done", "#4CAF50", "check", true⟩,
    ⟨2, "Waiting", "#9C27B0", "clock", true⟩,
    ⟨3, "On Hold", "#FFC107", "minus", true⟩,
    ⟨4, "Cancelled", "#757575", "x", true⟩ ]

/-- models.py: `ChecklistItem` dataclass. `children` makes this a nested
inductive (a rose tree); field accessors are defined below. -/
inductive ChecklistItem where
  | mk (id : String) (text : String) (state_number : Int) (collapsed : Bool)
       (children : List ChecklistItem)
deriving Repr

namespace ChecklistItem

def id : ChecklistItem → String
  | .mk i _ _ _ _ => i

def text : ChecklistItem → String
  | .mk _ t _ _ _ => t

def state_number : ChecklistItem → Int
  | .mk _ _ n _ _ => n

def collapsed : ChecklistItem → Bool
  | .mk _ _ _ c _ => c

def children : ChecklistItem → List ChecklistItem
  | .mk _ _ _ _ cs => cs

/-- Replace the children list (models Python's in-place mutation of `.children`). -/
def setChildren : ChecklistItem → List ChecklistItem → ChecklistItem
  | .mk i t n c _, cs => .mk i t n c cs

@[simp] theorem id_mk (i t : String) (n : Int) (c : Bool) (cs : List ChecklistItem) :
    (ChecklistItem.mk i t n c cs).id = i := rfl

@[simp] theorem text_mk (i t : String) (n : Int) (c : Bool) (cs : List ChecklistItem) :
    (ChecklistItem.mk i t n c cs).text = t := rfl

@[simp] theorem state_number_mk (i t : String) (n : Int) (c : Bool) (cs : List ChecklistItem) :
    (ChecklistItem.mk i t n c cs).state_number = n := rfl

@[simp] theorem collapsed_mk (i t : String) (n : Int) (c : Bool) (cs : List ChecklistItem) :
    (ChecklistItem.mk i t n c cs).collapsed = c := rfl

@[simp] theorem children_mk (i t : String) (n : Int) (c : Bool) (cs : List ChecklistItem) :
    (ChecklistItem.mk i t n c cs).children = cs := rfl

@[simp] theorem setChildren_mk (i t : String) (n : Int) (c : Bool)
    (cs cs' : List ChecklistItem) :
    (ChecklistItem.mk i t n c cs).setChildren cs' = .mk i t n c cs' := rfl

@[simp] theorem id_setChildren (it : ChecklistItem) (cs : List ChecklistItem) :
    (it.setChildren cs).id = it.id := by cases it; rfl

@[simp] theorem children_setChildren (it : ChecklistItem) (cs : List ChecklistItem) :
    (it.setChildren cs).children = cs := by cases it; rfl

@[simp] theorem setChildren_children (it : ChecklistItem) :
    it.setChildren it.children = it := by cases it; rfl

theorem sizeOf_children_lt (it : ChecklistItem) : sizeOf it.children < sizeOf it := by
  cases it with
  | mk i t n c cs => simp

end ChecklistItem

/-- models.py: `Checklist` dataclass. -/
structure Checklist where
  name : String := "Untitled"
  states : List ChecklistState :=
    DEFAULT_STATES.map fun s => ⟨s.number, s.label, s.color, s.symbol, true⟩
  items : List ChecklistItem := []
  default_state_number : Int := 0
deriving Repr

namespace Checklist

/-- models.py: `Checklist.state_by_number`. -/
def state_by_number (cl : Checklist) (number : Int) : Option ChecklistState :=
  cl.states.find? (fun s => s.number == number)

/-- models.py: `Checklist.checkbox_states` (all `number >= 0`, ascending;
Python `sorted` is stable, as is `List.mergeSort`). -/
def checkbox_states (cl : Checklist) : List ChecklistState :=
  (cl.states.filter (fun s => decide (0 ≤ s.number))).mergeSort
    (fun a b => decide (a.number ≤ b.number))

/-- models.py: `Checklist.cycleable_states`. -/
def cycleable_states (cl : Checklist) : List ChecklistState :=
  (cl.states.filter (fun s => decide (0 ≤ s.number) && s.in_cycle)).mergeSort
    (fun a b => decide (a.number ≤ b.number))

/-- models.py: `Checklist.next_checkbox_state`. The source indexes
`cb[(idx + 1) % len(cb)]` (always in bounds) and `self.states[0]` (IndexError
on an empty catalog — that corner never arises in the properties below; the
`getD` default stands in for the raised exception). -/
def next_checkbox_state (cl : Checklist) (current : Int) : ChecklistState :=
  let cb0 := cl.cycleable_states
  let cb := if cb0.isEmpty then cl.checkbox_states else cb0
  if cb.isEmpty then cl.states.getD 0 ⟨0, "", "", "", true⟩
  else
    let nums := cb.map (·.number)
    match nums.indexOf? current with
    | some idx => cb.getD ((idx + 1) % cb.length) ⟨0, "", "", "", true⟩
    | none => cb.getD 0 ⟨0, "", "", "", true⟩

/-- models.py: `Checklist.smart_click_target`. `self.checkbox_states()[0]`
raises IndexError on an empty catalog; the `getD` default stands in for that
never-exercised corner. -/
def smart_click_target (cl : Checklist) (current : Int) : Int :=
  if current == 1 then
    if (cl.state_by_number 0).isSome then 0
    else (cl.checkbox_states.getD 0 ⟨0, "", "", "", true⟩).number
  else
    if (cl.state_by_number 1).isSome then 1
    else (cl.checkbox_states.getD 0 ⟨0, "", "", "", true⟩).number

end Checklist

/-! ## checklist_view.py: pure tree-editing operations

Each Python static method walks `items` with `enumerate`, mutating lists in
place and returning a boolean / the removed node.  The Lean versions rebuild
the list; `none` encodes Python's `False` / `None` return (no mutation). -/

namespace ChecklistView

open ChecklistItem

mutual

/-- checklist_view.py: `ChecklistView._indent_in_model`.  At index 0 the guard
`i > 0` fails, so the head can only be recursed into; from index 1 on,
`indentRest` carries the preceding sibling. -/
def indentInModel (items : List ChecklistItem) (targetId : String) :
    Option (List ChecklistItem) :=
  match items with
  | [] => none
  | it :: rest =>
    match indentInModel it.children targetId with
    | some cs => some (it.setChildren cs :: rest)
    | none => indentRest it rest targetId
termination_by sizeOf items
decreasing_by
  all_goals simp_wf
  all_goals cases it
  all_goals simp
  all_goals omega

/-- Loop body of `_indent_in_model` for positions `i ≥ 1`: `prev` is
`items[i-1]`; a match pops the item and appends it to `prev.children`. -/
def indentRest (prev : ChecklistItem) (items : List ChecklistItem)
    (targetId : String) : Option (List ChecklistItem) :=
  match items with
  | [] => none
  | it :: rest =>
    if it.id == targetId then
      some (prev.setChildren (prev.children ++ [it]) :: rest)
    else
      match indentInModel it.children targetId with
      | some cs => some (prev :: it.setChildren cs :: rest)
      | none =>
        match indentRest it rest targetId with
        | some r => some (prev :: r)
        | none => none
termination_by sizeOf items
decreasing_by
  all_goals simp_wf
  all_goals cases it
  all_goals simp
  all_goals omega

end

/-- Result of one scan level of `_outdent_in_model`:
`here pre t post` = the target is a direct element of this list
(`items = pre ++ t :: post`), to be spliced by the caller holding
`parent_list`; `done l` = the outdent already happened strictly below and this
level's list rewrote to `l`; `no` = not found. -/
inductive OutRes where
  | no
  | here (pre : List ChecklistItem) (t : ChecklistItem) (post : List ChecklistItem)
  | done (newItems : List ChecklistItem)
deriving Repr

/-- checklist_view.py: `ChecklistView._outdent_in_model`, one level.  The
Python call on `it.children` receives `parent_list = items, parent_idx = i`;
finding the target directly in `it.children` pops it there and inserts it into
`items` at `i + 1` — the `.here` case below, handled at the parent level. -/
def outdentScan (items : List ChecklistItem) (targetId : String) : OutRes :=
  match items with
  | [] => .no
  | it :: rest =>
    if it.id == targetId then .here [] it rest
    else
      match outdentScan it.children targetId with
      | .here cpre c cpost =>
        .done (it.setChildren (cpre ++ cpost) :: c :: rest)
      | .done cs => .done (it.setChildren cs :: rest)
      | .no =>
        match outdentScan rest targetId with
        | .here pre t post => .here (it :: pre) t post
        | .done r => .done (it :: r)
        | .no => .no
termination_by sizeOf items
decreasing_by
  all_goals simp_wf
  all_goals cases it
  all_goals simp
  all_goals omega

/-- checklist_view.py: `ChecklistView._outdent_in_model` as called from
`outdent_item` (`parent_list=None, parent_idx=-1`): a top-level hit returns
`False` (root outdent is a no-op). -/
def outdentInModel (items : List ChecklistItem) (targetId : String) :
    Option (List ChecklistItem) :=
  match outdentScan items targetId with
  | .here _ _ _ => none
  | .done r => some r
  | .no => none

/-- checklist_view.py: `ChecklistView._find_and_remove`: returns the removed
node (with its whole subtree) and the rewritten forest. -/
def findAndRemove (items : List ChecklistItem) (targetId : String) :
    Option (ChecklistItem × List ChecklistItem) :=
  match items with
  | [] => none
  | it :: rest =>
    if it.id == targetId then some (it, rest)
    else
      match findAndRemove it.children targetId with
      | some (found, cs) => some (found, it.setChildren cs :: rest)
      | none =>
        match findAndRemove rest targetId with
        | some (found, r) => some (found, it :: r)
        | none => none
termination_by sizeOf items
decreasing_by
  all_goals simp_wf
  all_goals cases it
  all_goals simp
  all_goals omega

/-- checklist_view.py: `ChecklistView._insert_relative`.  Note the source
returns `True` without inserting when the target matches but the zone is not
one of `before`/`after`/`inside`. -/
def insertRelative (items : List ChecklistItem) (targetId : String)
    (zone : String) (item : ChecklistItem) : List ChecklistItem × Bool :=
  match items with
  | [] => ([], false)
  | it :: rest =>
    if it.id == targetId then
      if zone == "before" then (item :: it :: rest, true)
      else if zone == "after" then (it :: item :: rest, true)
      else if zone == "inside" then
        (it.setChildren (it.children ++ [item]) :: rest, true)
      else (it :: rest, true)
    else
      match insertRelative it.children targetId zone item with
      | (cs, true) => (it.setChildren cs :: rest, true)
      | (_, false) =>
        match insertRelative rest targetId zone item with
        | (r, b) => (it :: r, b)
termination_by sizeOf items
decreasing_by
  all_goals simp_wf
  all_goals cases it
  all_goals simp
  all_goals omega

/-- checklist_view.py: `ChecklistView._contains`. -/
def contains (items : List ChecklistItem) (targetId : String) : Bool :=
  match items with
  | [] => false
  | it :: rest =>
    if it.id == targetId then true
    else contains it.children targetId || contains rest targetId
termination_by sizeOf items
decreasing_by
  all_goals simp_wf
  all_goals cases it
  all_goals simp
  all_goals omega

/-- checklist_view.py: `ChecklistView._is_descendant`: on the first node whose
id is `ancestorId`, returns whether `targetId` lies strictly inside its
subtree (and stops scanning). -/
def isDescendant (items : List ChecklistItem) (ancestorId targetId : String) :
    Bool :=
  match items with
  | [] => false
  | it :: rest =>
    if it.id == ancestorId then contains it.children targetId
    else isDescendant it.children ancestorId targetId
         || isDescendant rest ancestorId targetId
termination_by sizeOf items
decreasing_by
  all_goals simp_wf
  all_goals cases it
  all_goals simp
  all_goals omega

/-- checklist_view.py: `ChecklistView.handle_drop` (the `relocate` operation),
restricted to its pure effect on the model forest.  `targetId = none` models
Python `target_id is None`; the first guard uses Python truthiness
(`if target_id and ...`), so an empty-string target skips the descendance
check. -/
def handleDrop (items : List ChecklistItem) (sourceId : String)
    (targetId : Option String) (zone : String) : List ChecklistItem :=
  let reject :=
    match targetId with
    | some t => decide (t ≠ "") && isDescendant items sourceId t
    | none => false
  if reject then items
  else
    match findAndRemove items sourceId with
    | none => items
    | some (moved, rest) =>
      match targetId with
      | none => rest ++ [moved]
      | some t =>
        if zone == "end" then rest ++ [moved]
        else (insertRelative rest t zone moved).1

end ChecklistView

/-! ## item_widget.py: indicator interaction and rendering fallback -/

namespace ItemWidget

/-- item_widget.py: `ChecklistItemWidget._apply_state`, restricted to the
color/symbol actually selected: the `None` fallback is the fixed pair
`("#888888", "empty")`, not a catalog entry.  `cl? = none` models
`self._checklist` being unset. -/
def appliedState (cl? : Option Checklist) (state_number : Int) : String × String :=
  match cl?.bind (fun cl => cl.state_by_number state_number) with
  | some st => (st.color, st.symbol)
  | none => ("#888888", "empty")

/-- item_widget.py: `ChecklistItemWidget._on_indicator_click` as a pure
transition on `(state_number, last_click_time)`; `now` is `time.monotonic()`.
Timing uses `ℚ` for the source's exact decimal literals. -/
def onIndicatorClick (cl? : Option Checklist) (state_number : Int)
    (lastClickTime now : ℚ) : Int × ℚ :=
  match cl? with
  | none => (state_number, lastClickTime)
  | some cl =>
    if state_number == -1 then (state_number, lastClickTime)
    else
      let elapsed := now - lastClickTime
      if elapsed > 1 then (cl.smart_click_target state_number, now)
      else ((cl.next_checkbox_state state_number).number, now)

/-- item_widget.py: `ChecklistItemWidget._on_indicator_long`. -/
def onIndicatorLong (cl? : Option Checklist) (state_number : Int) : Int :=
  match cl? with
  | none => state_number
  | some _ => if state_number == -1 then 0 else -1

/-- item_widget.py: `_IndicatorButton`'s 500 ms single-shot `_long_timer`: the
long-press fires (and the release is suppressed) iff the button is held at
least 0.5 time units. -/
def longPressFires (held : ℚ) : Bool :=
  decide (held ≥ 500 / 1000)

end ItemWidget

/-! ## Decimal integer printing / parsing

xml_io.py writes numbers with Python `str(...)` and reads them back with
`int(...)` (ValueError on non-numeric text).  These two functions model that
pair; `int_of_string` returns `none` where `int()` raises.  (Python's `int`
additionally strips whitespace and underscores; no saved document contains
those.) -/

/-- Decimal digits of `n`, least significant first; never empty. -/
def natToRevDigits (n : Nat) : List Char :=
  if h : n < 10 then [Char.ofNat (n + 48)]
  else Char.ofNat (n % 10 + 48) :: natToRevDigits (n / 10)
termination_by n
decreasing_by
  simp_wf
  omega

/-- Python `str` on a nonnegative integer. -/
def natToStr (n : Nat) : String :=
  String.mk (natToRevDigits n).reverse

/-- Python `str` on an integer. -/
def intToStr (i : Int) : String :=
  if i < 0 then String.mk ('-' :: (natToRevDigits i.natAbs).reverse)
  else natToStr i.toNat

def digitVal (c : Char) : Option Nat :=
  if '0' ≤ c ∧ c ≤ '9' then some (c.toNat - 48) else none

def parseDigitsAcc (acc : Nat) : List Char → Option Nat
  | [] => some acc
  | c :: cs =>
    match digitVal c with
    | some d => parseDigitsAcc (acc * 10 + d) cs
    | none => none

/-- All-digit parse of a nonempty digit string (Python `int` on an unsigned
literal; `none` models the ValueError). -/
def parseNatChars (l : List Char) : Option Nat :=
  match l with
  | [] => none
  | _ => parseDigitsAcc 0 l

/-- Python `int(s)` for the strings occurring in saved/legacy documents: an
optional sign followed by at least one digit. -/
def int_of_string (s : String) : Option Int :=
  match s.toList with
  | [] => none
  | c :: rest =>
    if c = '-' then (parseNatChars rest).map (fun n => -(n : Int))
    else if c = '+' then (parseNatChars rest).map (fun n => (n : Int))
    else (parseNatChars (c :: rest)).map (fun n => (n : Int))

/-! ## xml_io.py: persistence

An lxml element tree is modelled structurally: tag, attribute list (keys are
written once, so first-match lookup equals dict lookup), ordered children.
An unparsable file (where `etree.parse` raises) is modelled as `none` input to
`loadChecklist`; exceptions that escape a function become `Except.error`. -/

structure Elem where
  tag : String
  attrs : List (String × String)
  children : List Elem
deriving Repr

namespace Elem

/-- lxml `el.get(key)`. -/
def get (e : Elem) (key : String) : Option String :=
  (e.attrs.find? (fun p => p.1 == key)).map (·.2)

/-- lxml `el.get(key, default)`. -/
def getD (e : Elem) (key dflt : String) : String :=
  (e.get key).getD dflt

/-- lxml `el.find(tag)`: first direct child with the tag. -/
def findTag (e : Elem) (tag : String) : Option Elem :=
  e.children.find? (fun c => c.tag == tag)

end Elem

namespace XmlStore

/-- xml_io.py: `_OLD_ID_TO_NUMBER`. -/
def OLD_ID_TO_NUMBER : List (String × Int) :=
  [("todo", 0), ("done", 1), ("waiting", 2), ("cancelled", 4)]

/-- xml_io.py: `_OLD_ID_TO_SYMBOL`. -/
def OLD_ID_TO_SYMBOL : List (String × String) :=
  [("todo", "empty"), ("done", "check"), ("waiting", "clock"), ("cancelled", "square")]

/-- Python `dict.get(key, default)` on the association lists above. -/
def lookupD {α : Type} (m : List (String × α)) (key : String) (dflt : α) : α :=
  ((m.find? (fun p => p.1 == key)).map (·.2)).getD dflt

/-- Python `str.title()` (ASCII): uppercase a letter that starts a letter run,
lowercase the rest.  Used only for the default label of a legacy state tag. -/
def titleChars : List Char → Bool → List Char
  | [], _ => []
  | c :: cs, prevAlpha =>
    if c.isAlpha then
      (if prevAlpha then c.toLower else c.toUpper) :: titleChars cs true
    else c :: titleChars cs false

def pyTitle (s : String) : String :=
  String.mk (titleChars s.toList false)

/-- Stand-in for `_short_id()` (a random uuid fragment) in the never-saved
branch where an `<item>` lacks an `id` attribute; the value is irrelevant to
every property below because `save_checklist` always writes `id`. -/
def shortIdFallback : String := "xxxxxxxx"

/-- xml_io.py: `_items_to_xml` (one `<item>` element per item, `collapsed`
written only when true, children nested). -/
def itemsToXml (items : List ChecklistItem) : List Elem :=
  match items with
  | [] => []
  | it :: rest =>
    Elem.mk "item"
      ([("id", it.id), ("text", it.text), ("state", intToStr it.state_number)]
        ++ (if it.collapsed then [("collapsed", "true")] else []))
      (itemsToXml it.children)
    :: itemsToXml rest
termination_by sizeOf items
decreasing_by
  all_goals simp_wf
  all_goals cases it
  all_goals simp
  all_goals omega

/-- xml_io.py: the `<state>` element written by `save_checklist`. -/
def stateToXml (s : ChecklistState) : Elem :=
  Elem.mk "state"
    ([("number", intToStr s.number), ("label", s.label),
      ("color", s.color), ("symbol", s.symbol)]
      ++ (if s.in_cycle then [] else [("in_cycle", "false")]))
    []

/-- xml_io.py: `save_checklist`, as the document (root element) it writes. -/
def saveChecklist (cl : Checklist) : Elem :=
  Elem.mk "checklist"
    [("name", cl.name), ("default_state", intToStr cl.default_state_number)]
    [ Elem.mk "states" [] (cl.states.map stateToXml),
      Elem.mk "items" [] (itemsToXml cl.items) ]

/-- xml_io.py: `_items_from_xml`: parse the `<item>` children of `parent`,
falling back to the legacy string-tag mapping when `int()` raises. -/
def itemsFromList (els : List Elem) : List ChecklistItem :=
  match els with
  | [] => []
  | el :: rest =>
    if el.tag == "item" then
      let raw := el.getD "state" "0"
      let stateNum :=
        match int_of_string raw with
        | some n => n
        | none => lookupD OLD_ID_TO_NUMBER raw 0
      ChecklistItem.mk ((el.get "id").getD shortIdFallback) (el.getD "text" "")
        stateNum (el.getD "collapsed" "false" == "true")
        (itemsFromList el.children)
      :: itemsFromList rest
    else itemsFromList rest
termination_by sizeOf els
decreasing_by
  all_goals simp_wf
  all_goals cases el
  all_goals simp
  all_goals omega

def itemsFromXml (parent : Elem) : List ChecklistItem :=
  itemsFromList parent.children

/-- xml_io.py: the `<state>`-element loop of `load_checklist`.  A present but
non-numeric `number` attribute makes `int(num_attr)` raise — the ValueError
propagates out of `load_checklist` (`Except.error`).  The legacy branch
defaults the number to `len(states)` accumulated so far. -/
def statesFromList (els : List Elem) (acc : List ChecklistState) :
    Except Unit (List ChecklistState) :=
  match els with
  | [] => .ok acc
  | el :: rest =>
    if el.tag == "state" then
      match el.get "number" with
      | some numAttr =>
        match int_of_string numAttr with
        | none => .error ()
        | some n =>
          statesFromList rest
            (acc ++ [⟨n, el.getD "label" "", el.getD "color" "#888888",
                      el.getD "symbol" "square",
                      el.getD "in_cycle" "true" != "false"⟩])
      | none =>
        let oldId := el.getD "id" ""
        statesFromList rest
          (acc ++ [⟨lookupD OLD_ID_TO_NUMBER oldId (acc.length : Int),
                    el.getD "label" (pyTitle oldId), el.getD "color" "#888888",
                    lookupD OLD_ID_TO_SYMBOL oldId "square", true⟩])
    else statesFromList rest acc

/-- xml_io.py: `load_checklist`.  `none` = `etree.parse` raised (unparsable
file): the exception propagates.  A parseable document missing `<states>` /
`<items>` falls back to the default catalog / no items. -/
def loadChecklist (doc : Option Elem) : Except Unit Checklist :=
  match doc with
  | none => .error ()
  | some root => do
    let name := root.getD "name" "Untitled"
    let states ←
      match root.findTag "states" with
      | some statesEl => statesFromList statesEl.children []
      | none => pure []
    let states :=
      if states.isEmpty then
        DEFAULT_STATES.map fun s => ⟨s.number, s.label, s.color, s.symbol, true⟩
      else states
    let items :=
      match root.findTag "items" with
      | some itemsEl => itemsFromXml itemsEl
      | none => []
    let defaultState :=
      match int_of_string (root.getD "default_state" "0") with
      | some n => n
      | none => 0
    return { name := name, states := states, items := items,
             default_state_number := defaultState }

end XmlStore

/-! ## Semantic observers: nodes, ids, counts, fields -/

/-- All nodes of a forest, pre-order. -/
def allNodes : List ChecklistItem → List ChecklistItem
  | [] => []
  | it :: rest => it :: (allNodes it.children ++ allNodes rest)
termination_by items => sizeOf items
decreasing_by
  all_goals simp_wf
  all_goals cases it
  all_goals simp
  all_goals omega

/-- All ids of a forest, pre-order. -/
def forestIds (items : List ChecklistItem) : List String :=
  (allNodes items).map ChecklistItem.id

/-- Total node count of a forest. -/
def forestSize (items : List ChecklistItem) : Nat :=
  (allNodes items).length

/-- The per-item payload untouched by structural edits. -/
def itemFields (it : ChecklistItem) : String × String × Int × Bool :=
  (it.id, it.text, it.state_number, it.collapsed)

@[simp] theorem allNodes_nil : allNodes [] = [] := by
  simp [allNodes]

theorem allNodes_cons (it : ChecklistItem) (rest : List ChecklistItem) :
    allNodes (it :: rest) = it :: (allNodes it.children ++ allNodes rest) := by
  rw [allNodes]

theorem allNodes_append (l₁ l₂ : List ChecklistItem) :
    allNodes (l₁ ++ l₂) = allNodes l₁ ++ allNodes l₂ := by
  induction l₁ with
  | nil => simp
  | cons it rest ih => simp [allNodes_cons, ih]

@[simp] theorem forestIds_nil : forestIds [] = [] := by
  simp [forestIds]

theorem forestIds_cons (it : ChecklistItem) (rest : List ChecklistItem) :
    forestIds (it :: rest) = it.id :: (forestIds it.children ++ forestIds rest) := by
  simp [forestIds, allNodes_cons]

theorem forestIds_append (l₁ l₂ : List ChecklistItem) :
    forestIds (l₁ ++ l₂) = forestIds l₁ ++ forestIds l₂ := by
  simp [forestIds, allNodes_append]

@[simp] theorem forestSize_nil : forestSize [] = 0 := by
  simp [forestSize]

theorem forestSize_cons (it : ChecklistItem) (rest : List ChecklistItem) :
    forestSize (it :: rest) = 1 + forestSize it.children + forestSize rest := by
  simp [forestSize, allNodes_cons]
  omega

theorem forestSize_append (l₁ l₂ : List ChecklistItem) :
    forestSize (l₁ ++ l₂) = forestSize l₁ + forestSize l₂ := by
  simp [forestSize, allNodes_append]

theorem forestSize_eq_length_ids (items : List ChecklistItem) :
    forestSize items = (forestIds items).length := by
  simp [forestSize, forestIds]

/-- The `_contains` helper decides id membership. -/
theorem contains_iff_mem (items : List ChecklistItem) (t : String) :
    ChecklistView.contains items t = true ↔ t ∈ forestIds items := by
  induction items, t using ChecklistView.contains.induct with
  | case1 t => simp [ChecklistView.contains]
  | case2 t it rest hbeq =>
    rw [ChecklistView.contains]
    simp only [hbeq, if_true]
    simp only [beq_iff_eq] at hbeq
    simp [forestIds_cons, hbeq]
  | case3 t it rest hbeq ih₁ ih₂ =>
    rw [ChecklistView.contains]
    simp only [hbeq, if_false]
    simp only [beq_iff_eq] at hbeq
    simp [forestIds_cons, ih₁, ih₂]
    intro he
    exact absurd he.symm hbeq

/-- Fields of every node of a forest, pre-order. -/
def forestFields (items : List ChecklistItem) : List (String × String × Int × Bool) :=
  (allNodes items).map itemFields

@[simp] theorem forestFields_nil : forestFields [] = [] := by
  simp [forestFields]

theorem forestFields_cons (it : ChecklistItem) (rest : List ChecklistItem) :
    forestFields (it :: rest)
      = itemFields it :: (forestFields it.children ++ forestFields rest) := by
  simp [forestFields, allNodes_cons]

theorem forestFields_append (l₁ l₂ : List ChecklistItem) :
    forestFields (l₁ ++ l₂) = forestFields l₁ ++ forestFields l₂ := by
  simp [forestFields, allNodes_append]

theorem forestFields_setChildren (it : ChecklistItem) (cs rest : List ChecklistItem) :
    forestFields (it.setChildren cs :: rest)
      = itemFields it :: (forestFields cs ++ forestFields rest) := by
  cases it
  simp [forestFields_cons, itemFields]

theorem forestIds_eq_map_fields (items : List ChecklistItem) :
    forestIds items = (forestFields items).map (·.1) := by
  simp [forestIds, forestFields, itemFields]

/-- The `_find_and_remove` helper returns the node whose id matched. -/
theorem findAndRemove_id (items : List ChecklistItem) (tid : String) :
    ∀ m rest, ChecklistView.findAndRemove items tid = some (m, rest) → m.id = tid := by
  induction items, tid using ChecklistView.findAndRemove.induct with
  | case1 tid => intro m rest h; simp [ChecklistView.findAndRemove] at h
  | case2 tid it rest' hbeq =>
    intro m rest h
    rw [ChecklistView.findAndRemove] at h
    simp [hbeq] at h
    simp only [beq_iff_eq] at hbeq
    rw [← h.1, hbeq]
  | case3 tid it rest' hbeq found cs heq ih =>
    intro m rest h
    rw [ChecklistView.findAndRemove] at h
    simp [hbeq, heq] at h
    exact h.1 ▸ ih found cs heq
  | case4 tid it rest' hbeq heq found r heq₂ ih₁ ih₂ =>
    intro m rest h
    rw [ChecklistView.findAndRemove] at h
    simp [hbeq, heq, heq₂] at h
    exact h.1 ▸ ih₂ found r heq₂
  | case5 tid it rest' hbeq heq heq₂ ih =>
    intro m rest h
    rw [ChecklistView.findAndRemove] at h
    simp [hbeq, heq, heq₂] at h

/-- Fields of every node as a multiset (order forgotten). -/
def msFields (items : List ChecklistItem) : Multiset (String × String × Int × Bool) :=
  (forestFields items : Multiset (String × String × Int × Bool))

/-- Ids of every node as a multiset. -/
def msIds (items : List ChecklistItem) : Multiset String :=
  (forestIds items : Multiset String)

@[simp] theorem msFields_nil : msFields [] = 0 := by
  simp [msFields]

theorem msFields_cons (it : ChecklistItem) (rest : List ChecklistItem) :
    msFields (it :: rest)
      = {itemFields it} + msFields it.children + msFields rest := by
  simp [msFields, forestFields_cons, ← Multiset.cons_coe, ← Multiset.coe_add,
    ← Multiset.singleton_add, add_assoc]

theorem msFields_setChildren (it : ChecklistItem) (cs rest : List ChecklistItem) :
    msFields (it.setChildren cs :: rest)
      = {itemFields it} + msFields cs + msFields rest := by
  cases it
  simp [msFields_cons, itemFields]

theorem msFields_append (l₁ l₂ : List ChecklistItem) :
    msFields (l₁ ++ l₂) = msFields l₁ + msFields l₂ := by
  simp [msFields, forestFields_append, ← Multiset.coe_add]

theorem msIds_eq_map (items : List ChecklistItem) :
    msIds items = (msFields items).map (·.1) := by
  simp [msIds, msFields, forestIds_eq_map_fields]

theorem msFields_card (items : List ChecklistItem) :
    Multiset.card (msFields items) = forestSize items := by
  simp [msFields, forestSize, forestFields]

/-- The `_find_and_remove` helper detaches exactly the matched subtree: the multiset of
node fields splits into the removed subtree's and the remaining forest's. -/
theorem findAndRemove_msFields (items : List ChecklistItem) (tid : String) :
    ∀ m rest, ChecklistView.findAndRemove items tid = some (m, rest) →
      msFields items = {itemFields m} + msFields m.children + msFields rest := by
  induction items, tid using ChecklistView.findAndRemove.induct with
  | case1 tid => intro m rest h; simp [ChecklistView.findAndRemove] at h
  | case2 tid it rest' hbeq =>
    intro m rest h
    rw [ChecklistView.findAndRemove] at h
    simp [hbeq] at h
    obtain ⟨h₁, h₂⟩ := h
    subst h₁; subst h₂
    rw [msFields_cons]
  | case3 tid it rest' hbeq found cs heq ih =>
    intro m rest h
    rw [ChecklistView.findAndRemove] at h
    simp [hbeq, heq] at h
    obtain ⟨h₁, h₂⟩ := h
    subst h₁; subst h₂
    rw [msFields_cons, ih found cs heq, msFields_setChildren]
    abel
  | case4 tid it rest' hbeq heq found r heq₂ ih₁ ih₂ =>
    intro m rest h
    rw [ChecklistView.findAndRemove] at h
    simp [hbeq, heq, heq₂] at h
    obtain ⟨h₁, h₂⟩ := h
    subst h₁; subst h₂
    rw [msFields_cons, ih₂ found r heq₂, msFields_cons]
    abel
  | case5 tid it rest' hbeq heq heq₂ ih =>
    intro m rest h
    rw [ChecklistView.findAndRemove] at h
    simp [hbeq, heq, heq₂] at h

theorem findAndRemove_msIds (items : List ChecklistItem) (tid : String)
    (m : ChecklistItem) (rest : List ChecklistItem)
    (h : ChecklistView.findAndRemove items tid = some (m, rest)) :
    msIds items = {m.id} + msIds m.children + msIds rest := by
  have := findAndRemove_msFields items tid m rest h
  have hmap := congrArg (Multiset.map (·.1)) this
  simpa [msIds_eq_map, itemFields] using hmap

/-- Detaching a subtree removes exactly its node count. -/
theorem findAndRemove_size (items : List ChecklistItem) (tid : String)
    (m : ChecklistItem) (rest : List ChecklistItem)
    (h : ChecklistView.findAndRemove items tid = some (m, rest)) :
    forestSize items = 1 + forestSize m.children + forestSize rest := by
  have := congrArg Multiset.card (findAndRemove_msFields items tid m rest h)
  simp [msFields_card] at this
  omega

/-- If `_find_and_remove` finds nothing, the id is absent. -/
theorem contains_false_of_findAndRemove_none (items : List ChecklistItem)
    (tid : String) :
    ChecklistView.findAndRemove items tid = none →
      ChecklistView.contains items tid = false := by
  induction items, tid using ChecklistView.contains.induct with
  | case1 t => intro _; simp [ChecklistView.contains]
  | case2 t it rest hbeq =>
    intro h
    rw [ChecklistView.findAndRemove] at h
    simp [hbeq] at h
  | case3 t it rest hbeq ih₁ ih₂ =>
    intro h
    have hne : it.id ≠ t := by simpa using hbeq
    rw [ChecklistView.findAndRemove] at h
    rw [ChecklistView.contains]
    simp only [hbeq, if_false]
    cases hc : ChecklistView.findAndRemove it.children t with
    | some p =>
      rw [hc] at h
      simp [hne] at h
    | none =>
      rw [hc] at h
      cases hr : ChecklistView.findAndRemove rest t with
      | some p =>
        rw [hr] at h
        simp [hne] at h
      | none =>
        simp [ih₁ hc, ih₂ hr]

/-- A present id is always found and removed. -/
theorem contains_findAndRemove (items : List ChecklistItem) (tid : String) :
    ChecklistView.contains items tid = true →
      ∃ m rest, ChecklistView.findAndRemove items tid = some (m, rest) := by
  intro h
  cases hfar : ChecklistView.findAndRemove items tid with
  | none =>
    rw [contains_false_of_findAndRemove_none items tid hfar] at h
    cases h
  | some p =>
    cases p with
    | mk m rest => exact ⟨m, rest, by simp_all⟩

/-- Under unique ids, after removal the removed id is nowhere in the rest. -/
theorem findAndRemove_not_contains (items : List ChecklistItem) (tid : String)
    (m : ChecklistItem) (rest : List ChecklistItem)
    (hnd : (forestIds items).Nodup)
    (h : ChecklistView.findAndRemove items tid = some (m, rest)) :
    ChecklistView.contains rest tid = false := by
  have hid := findAndRemove_id items tid m rest h
  have hsplit := findAndRemove_msIds items tid m rest h
  have hcount := congrArg (Multiset.count tid) hsplit
  have hone : (forestIds items).count tid ≤ 1 :=
    List.nodup_iff_count_le_one.mp hnd tid
  simp [msIds, Multiset.count_add, hid] at hcount
  by_contra hcon
  have hmem : tid ∈ forestIds rest := by
    rw [← contains_iff_mem]
    simpa using hcon
  have : 0 < (forestIds rest).count tid := List.count_pos_iff.mpr hmem
  omega

/-- C8: for every forest with unique ids and every id present in it,
`_find_and_remove` succeeds, detaching the matching node with its whole
subtree: afterwards `_contains` (the find) yields false, and the total node
count drops by exactly the removed subtree's size (the node itself plus all
its descendants). -/
theorem C8_remove_detaches_subtree (items : List ChecklistItem) (tid : String)
    (hnd : (forestIds items).Nodup)
    (hmem : ChecklistView.contains items tid = true) :
    ∃ m rest, ChecklistView.findAndRemove items tid = some (m, rest) ∧
      m.id = tid ∧
      ChecklistView.contains rest tid = false ∧
      forestSize items = forestSize rest + (1 + forestSize m.children) := by
  rcases contains_findAndRemove items tid hmem with ⟨m, rest, h⟩
  refine ⟨m, rest, h, findAndRemove_id items tid m rest h,
    findAndRemove_not_contains items tid m rest hnd h, ?_⟩
  have := findAndRemove_size items tid m rest h
  omega

/-- Witness for C8 at a concrete forest: removing "b" from
`[a [b [c]], d]` leaves `[a, d]` with the count dropping from 4 to 2. -/
theorem C8_remove_detaches_subtree_witness :
    (forestIds [ChecklistItem.mk "a" "" 0 false
                  [ChecklistItem.mk "b" "" 0 false [ChecklistItem.mk "c" "" 0 false []]],
                ChecklistItem.mk "d" "" 0 false []]).Nodup ∧
    ChecklistView.contains
      [ChecklistItem.mk "a" "" 0 false
         [ChecklistItem.mk "b" "" 0 false [ChecklistItem.mk "c" "" 0 false []]],
       ChecklistItem.mk "d" "" 0 false []] "b" = true ∧
    ∃ m rest,
      ChecklistView.findAndRemove
        [ChecklistItem.mk "a" "" 0 false
           [ChecklistItem.mk "b" "" 0 false [ChecklistItem.mk "c" "" 0 false []]],
         ChecklistItem.mk "d" "" 0 false []] "b" = some (m, rest) ∧
      m.id = "b" ∧
      ChecklistView.contains rest "b" = false ∧
      forestSize
        [ChecklistItem.mk "a" "" 0 false
           [ChecklistItem.mk "b" "" 0 false [ChecklistItem.mk "c" "" 0 false []]],
         ChecklistItem.mk "d" "" 0 false []]
        = forestSize rest + (1 + forestSize m.children) := by
  have hnd : (forestIds
      [ChecklistItem.mk "a" "" 0 false
         [ChecklistItem.mk "b" "" 0 false [ChecklistItem.mk "c" "" 0 false []]],
       ChecklistItem.mk "d" "" 0 false []]).Nodup := by
    simp [forestIds_cons]
  have hc : ChecklistView.contains
      [ChecklistItem.mk "a" "" 0 false
         [ChecklistItem.mk "b" "" 0 false [ChecklistItem.mk "c" "" 0 false []]],
       ChecklistItem.mk "d" "" 0 false []] "b" = true := by
    simp [ChecklistView.contains]
  exact ⟨hnd, hc, C8_remove_detaches_subtree _ "b" hnd hc⟩

/-- Spec-level notion: id `y` lies strictly within the subtree of the node
with id `x` (somewhere in the forest). -/
def strictlyInSubtree (items : List ChecklistItem) (x y : String) : Prop :=
  ∃ n ∈ allNodes items, n.id = x ∧ y ∈ forestIds n.children

theorem nodup_parts (it : ChecklistItem) (rest : List ChecklistItem)
    (hnd : (forestIds (it :: rest)).Nodup) :
    (forestIds it.children).Nodup ∧ (forestIds rest).Nodup ∧
      it.id ∉ forestIds it.children ∧ it.id ∉ forestIds rest ∧
      ∀ z, z ∈ forestIds it.children → z ∉ forestIds rest := by
  rw [forestIds_cons] at hnd
  rcases List.nodup_cons.mp hnd with ⟨hnotin, hnd'⟩
  rcases List.nodup_append.mp hnd' with ⟨h₁, h₂, hdisj⟩
  refine ⟨h₁, h₂, fun hc => hnotin (List.mem_append.mpr (Or.inl hc)),
    fun hc => hnotin (List.mem_append.mpr (Or.inr hc)), ?_⟩
  intro z hz₁ hz₂
  exact hdisj hz₁ hz₂

/-- Under unique ids, `_is_descendant` recognises strict subtree membership. -/
theorem isDescendant_of_strictlyInSubtree (items : List ChecklistItem)
    (x y : String) :
    (forestIds items).Nodup → strictlyInSubtree items x y →
      ChecklistView.isDescendant items x y = true := by
  induction items, x, y using ChecklistView.isDescendant.induct with
  | case1 x y =>
    rintro _ ⟨n, hn, _, _⟩
    simp at hn
  | case2 x y it rest hbeq =>
    rintro hnd ⟨n, hn, hnx, hny⟩
    rw [ChecklistView.isDescendant]
    simp only [hbeq, if_true]
    simp only [beq_iff_eq] at hbeq
    have hids := congrArg (fun l => List.map ChecklistItem.id l)
      (allNodes_cons it rest)
    have hnodes : (allNodes (it :: rest)).map ChecklistItem.id
        = forestIds (it :: rest) := rfl
    have hinj := List.inj_on_of_nodup_map (f := ChecklistItem.id)
      (l := allNodes (it :: rest)) (by rw [hnodes]; exact hnd)
    have hit : it ∈ allNodes (it :: rest) := by
      rw [allNodes_cons]; exact List.mem_cons_self _ _
    have hn_eq : n = it := hinj hn hit (hnx.trans hbeq.symm)
    subst hn_eq
    exact (contains_iff_mem _ _).mpr hny
  | case3 x y it rest hbeq ih₁ ih₂ =>
    rintro hnd ⟨n, hn, hnx, hny⟩
    rw [ChecklistView.isDescendant]
    simp only [hbeq, if_false]
    simp only [beq_iff_eq] at hbeq
    rcases nodup_parts it rest hnd with ⟨hndc, hndr, _, _, _⟩
    rw [allNodes_cons] at hn
    rcases List.mem_cons.mp hn with hn | hn
    · exact absurd (hn ▸ hnx) hbeq
    · rcases List.mem_append.mp hn with hn | hn
      · rw [ih₁ hndc ⟨n, hn, hnx, hny⟩]
        simp
      · rw [ih₂ hndr ⟨n, hn, hnx, hny⟩]
        simp

/-- C1 counterexample: the claim includes the case `y == x`, but there the
descendance guard does not fire (`_is_descendant` is strict), the source
subtree is detached, and `_insert_relative` cannot find the just-removed
target: the subtree is lost and the forest changes (here to `[]`). -/
theorem C1_self_drop_changes_forest :
    ChecklistView.handleDrop [ChecklistItem.mk "a" "t" 0 false []]
        "a" (some "a") "before" = [] ∧
    ChecklistView.handleDrop [ChecklistItem.mk "a" "t" 0 false []]
        "a" (some "a") "before" ≠ [ChecklistItem.mk "a" "t" 0 false []] := by
  have h : ChecklistView.handleDrop [ChecklistItem.mk "a" "t" 0 false []]
      "a" (some "a") "before" = [] := by
    simp [ChecklistView.handleDrop, ChecklistView.isDescendant,
      ChecklistView.contains, ChecklistView.findAndRemove,
      ChecklistView.insertRelative]
  refine ⟨h, ?_⟩
  rw [h]
  simp

/-- C1 (amended): for every forest with unique ids and every nonempty id `y`
lying strictly within `x`'s subtree (`y ≠ x`), `handle_drop` leaves the forest
completely unchanged for every zone: the operation is rejected before any
detachment.  (As stated the claim also covered `y == x`, where the code
instead loses the dragged subtree — see the counterexample.) -/
theorem C1_relocate_rejects_strict_descendant (items : List ChecklistItem)
    (x y zone : String) (hnd : (forestIds items).Nodup) (hy : y ≠ "")
    (hsub : strictlyInSubtree items x y) :
    ChecklistView.handleDrop items x (some y) zone = items := by
  have hdesc := isDescendant_of_strictlyInSubtree items x y hnd hsub
  simp [ChecklistView.handleDrop, hdesc, hy]

/-- Witness for C1 (amended) at `[a [b]]`, dropping `a` onto its child `b`. -/
theorem C1_relocate_rejects_strict_descendant_witness :
    (forestIds [ChecklistItem.mk "a" "" 0 false
      [ChecklistItem.mk "b" "" 0 false []]]).Nodup ∧
    strictlyInSubtree
      [ChecklistItem.mk "a" "" 0 false [ChecklistItem.mk "b" "" 0 false []]]
      "a" "b" ∧
    ChecklistView.handleDrop
      [ChecklistItem.mk "a" "" 0 false [ChecklistItem.mk "b" "" 0 false []]]
      "a" (some "b") "inside"
      = [ChecklistItem.mk "a" "" 0 false [ChecklistItem.mk "b" "" 0 false []]] := by
  have hnd : (forestIds [ChecklistItem.mk "a" "" 0 false
      [ChecklistItem.mk "b" "" 0 false []]]).Nodup := by
    simp [forestIds_cons]
  have hsub : strictlyInSubtree
      [ChecklistItem.mk "a" "" 0 false [ChecklistItem.mk "b" "" 0 false []]]
      "a" "b" := by
    refine ⟨ChecklistItem.mk "a" "" 0 false [ChecklistItem.mk "b" "" 0 false []], ?_, rfl, ?_⟩
    · rw [allNodes_cons]
      exact List.mem_cons_self _ _
    · simp [forestIds_cons]
  exact ⟨hnd, hsub,
    C1_relocate_rejects_strict_descendant _ "a" "b" "inside" hnd (by simp) hsub⟩

/-- The `_insert_relative` helper reports success whenever the target id is present. -/
theorem insertRelative_success (items : List ChecklistItem) (tid zone : String)
    (m : ChecklistItem) :
    tid ∈ forestIds items → (ChecklistView.insertRelative items tid zone m).2 = true := by
  induction items, tid, zone, m using ChecklistView.insertRelative.induct with
  | case1 tid zone m => intro h; simp at h
  | case2 tid zone m it rest hbeq h₁ =>
    intro _
    rw [ChecklistView.insertRelative]
    simp [hbeq, h₁]
  | case3 tid zone m it rest hbeq h₁ h₂ =>
    intro _
    rw [ChecklistView.insertRelative]
    simp [hbeq, h₁, h₂]
  | case4 tid zone m it rest hbeq h₁ h₂ h₃ =>
    intro _
    rw [ChecklistView.insertRelative]
    simp [hbeq, h₁, h₂, h₃]
  | case5 tid zone m it rest hbeq h₁ h₂ h₃ =>
    intro _
    rw [ChecklistView.insertRelative]
    simp [hbeq, h₁, h₂, h₃]
  | case6 tid zone m it rest hbeq cs heq ih =>
    intro _
    rw [ChecklistView.insertRelative]
    simp [hbeq, heq]
  | case7 tid zone m it rest hbeq cs heq r b heq₂ ih₁ ih₂ =>
    intro hmem
    rw [ChecklistView.insertRelative]
    simp only [hbeq]
    rw [forestIds_cons] at hmem
    simp only [beq_iff_eq] at hbeq
    rcases List.mem_cons.mp hmem with hmem | hmem
    · exact absurd hmem.symm hbeq
    rcases List.mem_append.mp hmem with hmem | hmem
    · have := ih₁ hmem
      rw [heq] at this
      simp at this
    · have := ih₂ hmem
      rw [heq₂] at this
      simp at this
      simp [heq, heq₂, this]

@[simp] theorem itemFields_setChildren (it : ChecklistItem)
    (cs : List ChecklistItem) : itemFields (it.setChildren cs) = itemFields it := by
  cases it
  simp [itemFields]

/-- The `_insert_relative` helper succeeds only by locating the target id. -/
theorem insertRelative_mem_of_success (items : List ChecklistItem)
    (tid zone : String) (m : ChecklistItem) :
    (ChecklistView.insertRelative items tid zone m).2 = true →
      tid ∈ forestIds items := by
  induction items, tid, zone, m using ChecklistView.insertRelative.induct with
  | case1 tid zone m => intro h; simp [ChecklistView.insertRelative] at h
  | case2 tid zone m it rest hbeq h₁ =>
    intro _
    simp only [beq_iff_eq] at hbeq
    rw [forestIds_cons, hbeq]
    exact List.mem_cons_self _ _
  | case3 tid zone m it rest hbeq h₁ h₂ =>
    intro _
    simp only [beq_iff_eq] at hbeq
    rw [forestIds_cons, hbeq]
    exact List.mem_cons_self _ _
  | case4 tid zone m it rest hbeq h₁ h₂ h₃ =>
    intro _
    simp only [beq_iff_eq] at hbeq
    rw [forestIds_cons, hbeq]
    exact List.mem_cons_self _ _
  | case5 tid zone m it rest hbeq h₁ h₂ h₃ =>
    intro _
    simp only [beq_iff_eq] at hbeq
    rw [forestIds_cons, hbeq]
    exact List.mem_cons_self _ _
  | case6 tid zone m it rest hbeq cs heq ih =>
    intro _
    have := ih (by rw [heq])
    rw [forestIds_cons]
    exact List.mem_cons_of_mem _ (List.mem_append.mpr (Or.inl this))
  | case7 tid zone m it rest hbeq cs heq r b heq₂ ih₁ ih₂ =>
    intro h
    rw [ChecklistView.insertRelative] at h
    simp only [hbeq, heq, heq₂] at h
    simp at h
    have := ih₂ (by rw [heq₂, h])
    rw [forestIds_cons]
    exact List.mem_cons_of_mem _ (List.mem_append.mpr (Or.inr this))

/-- A successful `_insert_relative` with a real zone adds exactly the moved
subtree's nodes. -/
theorem insertRelative_msFields (items : List ChecklistItem) (tid zone : String)
    (m : ChecklistItem) :
    (zone = "before" ∨ zone = "after" ∨ zone = "inside") →
    tid ∈ forestIds items →
    msFields (ChecklistView.insertRelative items tid zone m).1
      = {itemFields m} + msFields m.children + msFields items := by
  induction items, tid, zone, m using ChecklistView.insertRelative.induct with
  | case1 tid zone m => intro _ h; simp at h
  | case2 tid zone m it rest hbeq h₁ =>
    intro _ _
    rw [ChecklistView.insertRelative]
    simp only [hbeq, h₁, if_true]
    simp only [msFields_cons]
  | case3 tid zone m it rest hbeq h₁ h₂ =>
    intro _ _
    rw [ChecklistView.insertRelative]
    simp [hbeq, h₁, h₂]
    simp only [msFields_cons, ← Multiset.singleton_add]
    abel
  | case4 tid zone m it rest hbeq h₁ h₂ h₃ =>
    intro _ _
    rw [ChecklistView.insertRelative]
    simp [hbeq, h₁, h₂, h₃]
    simp only [msFields_cons, msFields_append, msFields_nil,
      itemFields_setChildren, ChecklistItem.children_setChildren,
      ← Multiset.singleton_add]
    abel
  | case5 tid zone m it rest hbeq h₁ h₂ h₃ =>
    intro hzone _
    rcases hzone with h | h | h
    · exact absurd h (by simpa using h₁)
    · exact absurd h (by simpa using h₂)
    · exact absurd h (by simpa using h₃)
  | case6 tid zone m it rest hbeq cs heq ih =>
    intro hzone _
    rw [ChecklistView.insertRelative]
    have hmemc : tid ∈ forestIds it.children :=
      insertRelative_mem_of_success it.children tid zone m (by rw [heq])
    have hih := ih hzone hmemc
    rw [heq] at hih
    simp only at hih
    simp [hbeq, heq]
    simp only [msFields_cons, itemFields_setChildren,
      ChecklistItem.children_setChildren, hih, ← Multiset.singleton_add]
    abel
  | case7 tid zone m it rest hbeq cs heq r b heq₂ ih₁ ih₂ =>
    intro hzone hmem
    rw [ChecklistView.insertRelative]
    simp only [hbeq, heq, heq₂]
    have hmemr : tid ∈ forestIds rest := by
      rw [forestIds_cons] at hmem
      simp only [beq_iff_eq] at hbeq
      rcases List.mem_cons.mp hmem with hx | hx
      · exact absurd hx.symm hbeq
      rcases List.mem_append.mp hx with hx | hx
      · exfalso
        have := insertRelative_success it.children tid zone m hx
        rw [heq] at this
        simp at this
      · exact hx
    have hih := ih₂ hzone hmemr
    rw [heq₂] at hih
    simp only at hih
    simp [heq, heq₂]
    simp only [msFields_cons, hih, ← Multiset.singleton_add]
    abel

/-- The node removed by `_find_and_remove` is a node of the original forest
(with its subtree intact). -/
theorem findAndRemove_mem (items : List ChecklistItem) (tid : String) :
    ∀ m rest, ChecklistView.findAndRemove items tid = some (m, rest) →
      m ∈ allNodes items := by
  induction items, tid using ChecklistView.findAndRemove.induct with
  | case1 tid => intro m rest h; simp [ChecklistView.findAndRemove] at h
  | case2 tid it rest' hbeq =>
    intro m rest h
    rw [ChecklistView.findAndRemove] at h
    simp [hbeq] at h
    rw [allNodes_cons, ← h.1]
    exact List.mem_cons_self _ _
  | case3 tid it rest' hbeq found cs heq ih =>
    intro m rest h
    rw [ChecklistView.findAndRemove] at h
    simp [hbeq, heq] at h
    rw [allNodes_cons, ← h.1]
    exact List.mem_cons_of_mem _
      (List.mem_append.mpr (Or.inl (ih found cs heq)))
  | case4 tid it rest' hbeq heq found r heq₂ ih₁ ih₂ =>
    intro m rest h
    rw [ChecklistView.findAndRemove] at h
    simp [hbeq, heq, heq₂] at h
    rw [allNodes_cons, ← h.1]
    exact List.mem_cons_of_mem _
      (List.mem_append.mpr (Or.inr (ih₂ found r heq₂)))
  | case5 tid it rest' hbeq heq heq₂ ih =>
    intro m rest h
    rw [ChecklistView.findAndRemove] at h
    simp [hbeq, heq, heq₂] at h

/-- C2 (amended): `handle_drop` preserves the total item count whenever the
drop target is valid: always when the target is `None` or the zone is the
`end` sentinel, and — under unique ids — whenever the target id is a present,
nonempty id different from the source, for each real zone.  (As stated the
claim quantified over all argument triples, but a drop whose target equals
the source or names an absent id detaches the source subtree and then fails
to reattach it, losing the subtree — see the counterexample.) -/
theorem C2_relocate_preserves_count (items : List ChecklistItem) (s : String) :
    (∀ zone, forestSize (ChecklistView.handleDrop items s none zone)
      = forestSize items) ∧
    (∀ t, forestSize (ChecklistView.handleDrop items s t "end")
      = forestSize items) ∧
    (∀ tid zone, (forestIds items).Nodup → tid ≠ "" → tid ≠ s →
      tid ∈ forestIds items →
      (zone = "before" ∨ zone = "after" ∨ zone = "inside") →
      forestSize (ChecklistView.handleDrop items s (some tid) zone)
        = forestSize items) := by
  have happend : ∀ (m : ChecklistItem) (rest : List ChecklistItem),
      ChecklistView.findAndRemove items s = some (m, rest) →
      forestSize (rest ++ [m]) = forestSize items := by
    intro m rest h
    have hsz := findAndRemove_size items s m rest h
    rw [forestSize_append, forestSize_cons]
    simp
    omega
  have hnone : ∀ zone, forestSize (ChecklistView.handleDrop items s none zone)
      = forestSize items := by
    intro zone
    rw [ChecklistView.handleDrop]
    cases hfar : ChecklistView.findAndRemove items s with
    | none => simp [hfar]
    | some p =>
      cases p with
      | mk m rest => simp [hfar, happend m rest hfar]
  refine ⟨hnone, ?_, ?_⟩
  · intro t
    cases t with
    | none => exact hnone "end"
    | some u =>
      simp only [ChecklistView.handleDrop]
      by_cases hr : (decide (u ≠ "") && ChecklistView.isDescendant items s u) = true
      · rw [if_pos hr]
      · rw [if_neg hr]
        cases hfar : ChecklistView.findAndRemove items s with
        | none => rfl
        | some p =>
          cases p with
          | mk m rest => simp [happend m rest hfar]
  · intro tid zone hnd htne htns hmem hzone
    simp only [ChecklistView.handleDrop]
    cases hdesc : ChecklistView.isDescendant items s tid with
    | true => simp [htne]
    | false =>
      rw [if_neg (by simp)]
      cases hfar : ChecklistView.findAndRemove items s with
      | none => rfl
      | some p =>
        cases p with
        | mk m rest =>
          have hzne : (zone == "end") = false := by
            rcases hzone with h | h | h
            all_goals subst h
            all_goals rfl
          simp only [hzne, if_false]
          have hid := findAndRemove_id items s m rest hfar
          have hsplit := findAndRemove_msIds items s m rest hfar
          have hmemrest : tid ∈ forestIds rest := by
            have hcount := congrArg (Multiset.count tid) hsplit
            simp [msIds, Multiset.count_add, hid,
              List.count_cons, List.count_append, htns] at hcount
            have h1 : 0 < (forestIds items).count tid :=
              List.count_pos_iff.mpr hmem
            have hnotchild : tid ∉ forestIds m.children := by
              intro hc
              have hsub : strictlyInSubtree items s tid :=
                ⟨m, findAndRemove_mem items s m rest hfar, hid, hc⟩
              have := isDescendant_of_strictlyInSubtree items s tid hnd hsub
              rw [hdesc] at this
              cases this
            have hchild : (forestIds m.children).count tid = 0 :=
              List.count_eq_zero.mpr hnotchild
            have : 0 < (forestIds rest).count tid := by omega
            exact List.count_pos_iff.mp this
          have hins := insertRelative_msFields rest tid zone m hzone hmemrest
          have hcard := congrArg Multiset.card hins
          simp [msFields_card] at hcard
          have hsz := findAndRemove_size items s m rest hfar
          simp
          omega

/-- C2 counterexample: dropping an item onto itself detaches it and fails to
reattach it: the total count drops from 1 to 0, so `relocate` does not
preserve the item count for every argument triple. -/
theorem C2_self_drop_count_drops :
    forestSize (ChecklistView.handleDrop [ChecklistItem.mk "a" "t" 0 false []]
        "a" (some "a") "before") = 0 ∧
    forestSize [ChecklistItem.mk "a" "t" 0 false []] = 1 := by
  constructor
  · have h : ChecklistView.handleDrop [ChecklistItem.mk "a" "t" 0 false []]
        "a" (some "a") "before" = [] := by
      simp [ChecklistView.handleDrop, ChecklistView.isDescendant,
        ChecklistView.contains, ChecklistView.findAndRemove,
        ChecklistView.insertRelative]
    rw [h, forestSize_nil]
  · rw [forestSize_cons]
    simp

/-- Witness for C2 (amended): moving "b" before "a" in `[a, b [c]]` keeps the
count at 3; the other two conjuncts instantiated at the same forest. -/
theorem C2_relocate_preserves_count_witness :
    (forestSize (ChecklistView.handleDrop
        [ChecklistItem.mk "a" "" 0 false [],
         ChecklistItem.mk "b" "" 0 false [ChecklistItem.mk "c" "" 0 false []]]
        "b" none "before")
      = forestSize
        [ChecklistItem.mk "a" "" 0 false [],
         ChecklistItem.mk "b" "" 0 false [ChecklistItem.mk "c" "" 0 false []]]) ∧
    (forestSize (ChecklistView.handleDrop
        [ChecklistItem.mk "a" "" 0 false [],
         ChecklistItem.mk "b" "" 0 false [ChecklistItem.mk "c" "" 0 false []]]
        "b" (some "a") "end")
      = forestSize
        [ChecklistItem.mk "a" "" 0 false [],
         ChecklistItem.mk "b" "" 0 false [ChecklistItem.mk "c" "" 0 false []]]) ∧
    (forestSize (ChecklistView.handleDrop
        [ChecklistItem.mk "a" "" 0 false [],
         ChecklistItem.mk "b" "" 0 false [ChecklistItem.mk "c" "" 0 false []]]
        "b" (some "a") "before")
      = forestSize
        [ChecklistItem.mk "a" "" 0 false [],
         ChecklistItem.mk "b" "" 0 false [ChecklistItem.mk "c" "" 0 false []]]) := by
  refine ⟨(C2_relocate_preserves_count _ "b").1 "before",
    (C2_relocate_preserves_count _ "b").2.1 (some "a"),
    (C2_relocate_preserves_count _ "b").2.2 "a" "before" ?_ ?_ ?_ ?_ ?_⟩
  · simp [forestIds_cons]
  · simp
  · simp
  · simp [forestIds_cons]
  · exact Or.inl rfl

namespace ChecklistView

/-- The `_outdent_in_model` scan finds nothing when the id is absent. -/
theorem outdentScan_no_of_not_mem (items : List ChecklistItem) (tid : String) :
    tid ∉ forestIds items → outdentScan items tid = .no := by
  induction items, tid using outdentScan.induct with
  | case1 tid => intro _; rw [outdentScan]
  | case2 tid it rest hbeq =>
    intro hmem
    exfalso
    simp only [beq_iff_eq] at hbeq
    exact hmem (by rw [forestIds_cons, hbeq]; exact List.mem_cons_self _ _)
  | case3 tid it rest hbeq pre t post heq ih =>
    intro hmem
    exfalso
    have : outdentScan it.children tid = .no := ih (fun hc => hmem
      (by rw [forestIds_cons]; exact List.mem_cons_of_mem _ (List.mem_append.mpr (Or.inl hc))))
    rw [heq] at this
    cases this
  | case4 tid it rest hbeq r heq ih =>
    intro hmem
    exfalso
    have : outdentScan it.children tid = .no := ih (fun hc => hmem
      (by rw [forestIds_cons]; exact List.mem_cons_of_mem _ (List.mem_append.mpr (Or.inl hc))))
    rw [heq] at this
    cases this
  | case5 tid it rest hbeq heq pre t post heq₂ ih₁ ih₂ =>
    intro hmem
    exfalso
    have : outdentScan rest tid = .no := ih₂ (fun hc => hmem
      (by rw [forestIds_cons]; exact List.mem_cons_of_mem _ (List.mem_append.mpr (Or.inr hc))))
    rw [heq₂] at this
    cases this
  | case6 tid it rest hbeq heq r heq₂ ih₁ ih₂ =>
    intro hmem
    exfalso
    have : outdentScan rest tid = .no := ih₂ (fun hc => hmem
      (by rw [forestIds_cons]; exact List.mem_cons_of_mem _ (List.mem_append.mpr (Or.inr hc))))
    rw [heq₂] at this
    cases this
  | case7 tid it rest hbeq heq heq₂ ih₁ ih₂ =>
    intro _
    rw [outdentScan]
    simp [hbeq, heq, heq₂]

/-- Scanning `cs ++ [x]` where the target is exactly `x` and absent from `cs`
reports `x` as a direct hit with `cs` before it and nothing after. -/
theorem outdentScan_append_last (cs : List ChecklistItem) (x : ChecklistItem)
    (tid : String) (hx : x.id = tid) (hmem : tid ∉ forestIds cs) :
    outdentScan (cs ++ [x]) tid = .here cs x [] := by
  induction cs with
  | nil =>
    rw [List.nil_append, outdentScan]
    simp [hx]
  | cons c cs' ih =>
    have hcne : c.id ≠ tid := by
      intro hc
      exact hmem (by rw [forestIds_cons, hc]; exact List.mem_cons_self _ _)
    have hnc : tid ∉ forestIds c.children := fun hc => hmem
      (by rw [forestIds_cons]; exact List.mem_cons_of_mem _ (List.mem_append.mpr (Or.inl hc)))
    have hncs : tid ∉ forestIds cs' := fun hc => hmem
      (by rw [forestIds_cons]; exact List.mem_cons_of_mem _ (List.mem_append.mpr (Or.inr hc)))
    rw [List.cons_append, outdentScan]
    simp only [beq_iff_eq, hcne, if_false,
      outdentScan_no_of_not_mem c.children tid hnc, ih hncs]

end ChecklistView

namespace ChecklistView

/-- A successful indent implies the target id occurs in the forest
(statement for `indentInModel`). -/
theorem indentInModel_mem (items : List ChecklistItem) (tid : String) :
    ∀ F', indentInModel items tid = some F' → tid ∈ forestIds items := by
  refine indentInModel.induct
    (fun items tid => ∀ F', indentInModel items tid = some F' → tid ∈ forestIds items)
    (fun prev items tid => ∀ F', indentRest prev items tid = some F' → tid ∈ forestIds items)
    ?_ ?_ ?_ ?_ ?_ ?_ ?_ ?_ items tid
  · intro tid F' h
    rw [indentInModel] at h
    cases h
  · intro tid it rest cs heq ih F' _
    rw [forestIds_cons]
    exact List.mem_cons_of_mem _ (List.mem_append.mpr (Or.inl (ih cs heq)))
  · intro tid it rest heq ih₁ ih₂ F' h
    rw [indentInModel, heq] at h
    rw [forestIds_cons]
    exact List.mem_cons_of_mem _ (List.mem_append.mpr (Or.inr (ih₂ F' h)))
  · intro prev tid F' h
    rw [indentRest] at h
    cases h
  · intro prev tid it rest hbeq F' _
    simp only [beq_iff_eq] at hbeq
    rw [forestIds_cons, hbeq]
    exact List.mem_cons_self _ _
  · intro prev tid it rest hbeq cs heq ih F' _
    rw [forestIds_cons]
    exact List.mem_cons_of_mem _ (List.mem_append.mpr (Or.inl (ih cs heq)))
  · intro prev tid it rest hbeq heq cs heq₂ ih₁ ih₂ F' _
    rw [forestIds_cons]
    exact List.mem_cons_of_mem _ (List.mem_append.mpr (Or.inr (ih₂ cs heq₂)))
  · intro prev tid it rest hbeq heq heq₂ ih₁ ih₂ F' h
    rw [indentRest] at h
    simp [hbeq, heq, heq₂] at h

/-- A successful indent implies the target id occurs in the scanned tail
(statement for `indentRest`). -/
theorem indentRest_mem (prev : ChecklistItem) (items : List ChecklistItem)
    (tid : String) :
    ∀ F', indentRest prev items tid = some F' → tid ∈ forestIds items := by
  refine indentRest.induct
    (fun items tid => ∀ F', indentInModel items tid = some F' → tid ∈ forestIds items)
    (fun prev items tid => ∀ F', indentRest prev items tid = some F' → tid ∈ forestIds items)
    ?_ ?_ ?_ ?_ ?_ ?_ ?_ ?_ prev items tid
  · intro tid F' h
    rw [indentInModel] at h
    cases h
  · intro tid it rest cs heq ih F' _
    rw [forestIds_cons]
    exact List.mem_cons_of_mem _ (List.mem_append.mpr (Or.inl (ih cs heq)))
  · intro tid it rest heq ih₁ ih₂ F' h
    rw [indentInModel, heq] at h
    rw [forestIds_cons]
    exact List.mem_cons_of_mem _ (List.mem_append.mpr (Or.inr (ih₂ F' h)))
  · intro prev tid F' h
    rw [indentRest] at h
    cases h
  · intro prev tid it rest hbeq F' _
    simp only [beq_iff_eq] at hbeq
    rw [forestIds_cons, hbeq]
    exact List.mem_cons_self _ _
  · intro prev tid it rest hbeq cs heq ih F' _
    rw [forestIds_cons]
    exact List.mem_cons_of_mem _ (List.mem_append.mpr (Or.inl (ih cs heq)))
  · intro prev tid it rest hbeq heq cs heq₂ ih₁ ih₂ F' _
    rw [forestIds_cons]
    exact List.mem_cons_of_mem _ (List.mem_append.mpr (Or.inr (ih₂ cs heq₂)))
  · intro prev tid it rest hbeq heq heq₂ ih₁ ih₂ F' h
    rw [indentRest] at h
    simp [hbeq, heq, heq₂] at h

end ChecklistView

@[simp] theorem ChecklistItem.setChildren_setChildren (it : ChecklistItem)
    (cs cs' : List ChecklistItem) :
    (it.setChildren cs).setChildren cs' = it.setChildren cs' := by
  cases it
  rfl

namespace ChecklistView

/-- Core of C7: outdent exactly undoes a successful indent (forest restored
verbatim), given globally unique ids. -/
theorem outdentScan_undoes_indent (items : List ChecklistItem) (tid : String) :
    (forestIds items).Nodup → ∀ F', indentInModel items tid = some F' →
      outdentScan F' tid = .done items := by
  refine indentInModel.induct
    (fun items tid => (forestIds items).Nodup →
      ∀ F', indentInModel items tid = some F' → outdentScan F' tid = .done items)
    (fun prev items tid => (forestIds (prev :: items)).Nodup →
      ∀ F', indentRest prev items tid = some F' →
        outdentScan F' tid = .done (prev :: items))
    ?_ ?_ ?_ ?_ ?_ ?_ ?_ ?_ items tid
  · intro tid _ F' h
    rw [indentInModel] at h
    cases h
  · -- head's children indented in place
    intro tid it rest cs heq ih hnd F' h
    rw [indentInModel, heq] at h
    simp only [Option.some.injEq] at h
    subst h
    rcases nodup_parts it rest hnd with ⟨hndc, _, hnotc, _, _⟩
    have hmemc : tid ∈ forestIds it.children := indentInModel_mem _ _ cs heq
    have hitne : it.id ≠ tid := fun he => hnotc (he ▸ hmemc)
    have ihc := ih hndc cs heq
    rw [outdentScan]
    simp [hitne, ihc]
  · -- handled from position 1 on
    intro tid it rest heq ih₁ ih₂ hnd F' h
    rw [indentInModel, heq] at h
    exact ih₂ hnd F' h
  · intro prev tid _ F' h
    rw [indentRest] at h
    cases h
  · -- the match: item becomes last child of its preceding sibling
    intro prev tid it rest hbeq hnd F' h
    rw [indentRest] at h
    simp only [hbeq, if_true, Option.some.injEq] at h
    subst h
    simp only [beq_iff_eq] at hbeq
    rcases nodup_parts prev (it :: rest) hnd with ⟨hndpc, hndr, _, hnotr, hdisj⟩
    have htid_mem : tid ∈ forestIds (it :: rest) := by
      rw [forestIds_cons, ← hbeq]
      exact List.mem_cons_self _ _
    have hprevne : prev.id ≠ tid := fun he => hnotr (he ▸ htid_mem)
    have hnotpc : tid ∉ forestIds prev.children := fun hc =>
      hdisj tid hc htid_mem
    have hscan := outdentScan_append_last prev.children it tid hbeq hnotpc
    rw [outdentScan]
    simp [hprevne, hscan]
  · -- deeper inside a later sibling's children
    intro prev tid it rest hbeq cs heq ih hnd F' h
    rw [indentRest] at h
    simp [hbeq, heq] at h
    subst h
    simp only [beq_iff_eq] at hbeq
    rcases nodup_parts prev (it :: rest) hnd with ⟨hndpc, hndr, _, hnotr, hdisj⟩
    rcases nodup_parts it rest hndr with ⟨hndc, _, _, _, _⟩
    have hmemc : tid ∈ forestIds it.children := indentInModel_mem _ _ cs heq
    have htid_mem : tid ∈ forestIds (it :: rest) := by
      rw [forestIds_cons]
      exact List.mem_cons_of_mem _ (List.mem_append.mpr (Or.inl hmemc))
    have hprevne : prev.id ≠ tid := fun he => hnotr (he ▸ htid_mem)
    have hnotpc : tid ∉ forestIds prev.children := fun hc =>
      hdisj tid hc htid_mem
    have ihc := ih hndc cs heq
    have hinner : outdentScan (it.setChildren cs :: rest) tid = .done (it :: rest) := by
      rw [outdentScan]
      simp [hbeq, ihc]
    rw [outdentScan]
    simp [hprevne, outdentScan_no_of_not_mem prev.children tid hnotpc, hinner]
  · -- deeper among later siblings
    intro prev tid it rest hbeq heq cs heq₂ ih₁ ih₂ hnd F' h
    rw [indentRest] at h
    simp [hbeq, heq, heq₂] at h
    subst h
    rcases nodup_parts prev (it :: rest) hnd with ⟨hndpc, hndr, _, hnotr, hdisj⟩
    have hmemr : tid ∈ forestIds rest := indentRest_mem _ _ _ cs heq₂
    have htid_mem : tid ∈ forestIds (it :: rest) := by
      rw [forestIds_cons]
      exact List.mem_cons_of_mem _ (List.mem_append.mpr (Or.inr hmemr))
    have hprevne : prev.id ≠ tid := fun he => hnotr (he ▸ htid_mem)
    have hnotpc : tid ∉ forestIds prev.children := fun hc =>
      hdisj tid hc htid_mem
    have hinner := ih₂ hndr cs heq₂
    rw [outdentScan]
    simp [hprevne, outdentScan_no_of_not_mem prev.children tid hnotpc, hinner]
  · intro prev tid it rest hbeq heq heq₂ ih₁ ih₂ _ F' h
    rw [indentRest] at h
    simp [hbeq, heq, heq₂] at h

end ChecklistView

/-- C7: for every forest with unique ids, if `_indent_in_model` succeeds on an
item (which requires a preceding sibling at the time of indent), a subsequent
`_outdent_in_model` on the same item succeeds and restores the forest exactly
— in particular the item's original parent and its original position among
its original siblings. -/
theorem C7_indent_then_outdent_restores (items F' : List ChecklistItem)
    (tid : String) (hnd : (forestIds items).Nodup)
    (hind : ChecklistView.indentInModel items tid = some F') :
    ChecklistView.outdentInModel F' tid = some items := by
  rw [ChecklistView.outdentInModel,
    ChecklistView.outdentScan_undoes_indent items tid hnd F' hind]

/-- Witness for C7: indenting "b" under "a" in `[a, b]` and outdenting it
restores `[a, b]`. -/
theorem C7_indent_then_outdent_restores_witness :
    (forestIds [ChecklistItem.mk "a" "" 0 false [],
                ChecklistItem.mk "b" "" 1 true []]).Nodup ∧
    ChecklistView.indentInModel
        [ChecklistItem.mk "a" "" 0 false [], ChecklistItem.mk "b" "" 1 true []] "b"
      = some [ChecklistItem.mk "a" "" 0 false [ChecklistItem.mk "b" "" 1 true []]] ∧
    ChecklistView.outdentInModel
        [ChecklistItem.mk "a" "" 0 false [ChecklistItem.mk "b" "" 1 true []]] "b"
      = some [ChecklistItem.mk "a" "" 0 false [], ChecklistItem.mk "b" "" 1 true []] := by
  have hnd : (forestIds [ChecklistItem.mk "a" "" 0 false [],
      ChecklistItem.mk "b" "" 1 true []]).Nodup := by
    simp [forestIds_cons]
  have hind : ChecklistView.indentInModel
      [ChecklistItem.mk "a" "" 0 false [], ChecklistItem.mk "b" "" 1 true []] "b"
      = some [ChecklistItem.mk "a" "" 0 false [ChecklistItem.mk "b" "" 1 true []]] := by
    simp [ChecklistView.indentInModel, ChecklistView.indentRest]
  exact ⟨hnd, hind, C7_indent_then_outdent_restores _ _ "b" hnd hind⟩

namespace ChecklistView

/-- A `.here` result is an exact split of the scanned list. -/
theorem outdentScan_here_split (items : List ChecklistItem) (tid : String) :
    ∀ pre t post, outdentScan items tid = .here pre t post →
      items = pre ++ t :: post := by
  induction items, tid using outdentScan.induct with
  | case1 tid => intro pre t post h; rw [outdentScan] at h; cases h
  | case2 tid it rest hbeq =>
    intro pre t post h
    rw [outdentScan] at h
    simp only [hbeq, if_true, OutRes.here.injEq] at h
    rw [← h.1, ← h.2.1, ← h.2.2]
    rfl
  | case3 tid it rest hbeq cpre c cpost heq ih =>
    intro pre t post h
    rw [outdentScan] at h
    simp [hbeq, heq] at h
  | case4 tid it rest hbeq r heq ih =>
    intro pre t post h
    rw [outdentScan] at h
    simp [hbeq, heq] at h
  | case5 tid it rest hbeq heq rpre rt rpost heq₂ ih₁ ih₂ =>
    intro pre t post h
    rw [outdentScan] at h
    simp [hbeq, heq, heq₂] at h
    rw [← h.1, ← h.2.1, ← h.2.2, ih₂ rpre rt rpost heq₂]
    rfl
  | case6 tid it rest hbeq heq r heq₂ ih₁ ih₂ =>
    intro pre t post h
    rw [outdentScan] at h
    simp [hbeq, heq, heq₂] at h
  | case7 tid it rest hbeq heq heq₂ ih₁ ih₂ =>
    intro pre t post h
    rw [outdentScan] at h
    simp [hbeq, heq, heq₂] at h

/-- A successful indent permutes the node fields (nothing added or lost,
no field changed). -/
theorem indent_msFields (items : List ChecklistItem) (tid : String) :
    ∀ F', indentInModel items tid = some F' → msFields F' = msFields items := by
  refine indentInModel.induct
    (fun items tid => ∀ F', indentInModel items tid = some F' →
      msFields F' = msFields items)
    (fun prev items tid => ∀ F', indentRest prev items tid = some F' →
      msFields F' = msFields (prev :: items))
    ?_ ?_ ?_ ?_ ?_ ?_ ?_ ?_ items tid
  · intro tid F' h
    rw [indentInModel] at h
    cases h
  · intro tid it rest cs heq ih F' h
    rw [indentInModel, heq] at h
    simp only [Option.some.injEq] at h
    subst h
    rw [msFields_setChildren, ih cs heq, msFields_cons]
  · intro tid it rest heq ih₁ ih₂ F' h
    rw [indentInModel, heq] at h
    exact ih₂ F' h
  · intro prev tid F' h
    rw [indentRest] at h
    cases h
  · intro prev tid it rest hbeq F' h
    rw [indentRest] at h
    simp only [hbeq, if_true, Option.some.injEq] at h
    subst h
    rw [msFields_setChildren, msFields_append, msFields_cons, msFields_cons,
      msFields_cons]
    simp only [msFields_nil]
    abel
  · intro prev tid it rest hbeq cs heq ih F' h
    rw [indentRest] at h
    simp [hbeq, heq] at h
    subst h
    simp only [msFields_cons, msFields_setChildren, itemFields_setChildren,
      ChecklistItem.children_setChildren, ih cs heq]
  · intro prev tid it rest hbeq heq cs heq₂ ih₁ ih₂ F' h
    rw [indentRest] at h
    simp [hbeq, heq, heq₂] at h
    subst h
    simp only [msFields_cons, ih₂ cs heq₂]
  · intro prev tid it rest hbeq heq heq₂ ih₁ ih₂ F' h
    rw [indentRest] at h
    simp [hbeq, heq, heq₂] at h

/-- A completed outdent permutes the node fields. -/
theorem outdent_msFields (items : List ChecklistItem) (tid : String) :
    ∀ r, outdentScan items tid = .done r → msFields r = msFields items := by
  induction items, tid using outdentScan.induct with
  | case1 tid => intro r h; rw [outdentScan] at h; cases h
  | case2 tid it rest hbeq =>
    intro r h
    rw [outdentScan] at h
    simp [hbeq] at h
  | case3 tid it rest hbeq cpre c cpost heq ih =>
    intro r h
    rw [outdentScan] at h
    simp [hbeq, heq] at h
    subst h
    have hsplit := outdentScan_here_split it.children tid cpre c cpost heq
    simp only [msFields_cons, msFields_setChildren, itemFields_setChildren,
      ChecklistItem.children_setChildren, msFields_append]
    rw [hsplit, msFields_append, msFields_cons]
    abel
  | case4 tid it rest hbeq r' heq ih =>
    intro r h
    rw [outdentScan] at h
    simp [hbeq, heq] at h
    subst h
    simp only [msFields_cons, msFields_setChildren, itemFields_setChildren,
      ChecklistItem.children_setChildren, ih r' heq]
  | case5 tid it rest hbeq heq rpre rt rpost heq₂ ih₁ ih₂ =>
    intro r h
    rw [outdentScan] at h
    simp [hbeq, heq, heq₂] at h
  | case6 tid it rest hbeq heq r' heq₂ ih₁ ih₂ =>
    intro r h
    rw [outdentScan] at h
    simp [hbeq, heq, heq₂] at h
    subst h
    simp only [msFields_cons, ih₂ r' heq₂]
  | case7 tid it rest hbeq heq heq₂ ih₁ ih₂ =>
    intro r h
    rw [outdentScan] at h
    simp [hbeq, heq, heq₂] at h

end ChecklistView

namespace ChecklistView

/-- Whatever `_insert_relative` does (including the no-insert quirk on an
unknown zone), the result's nodes come from the original list plus the
inserted subtree. -/
theorem insertRelative_msFields_le (items : List ChecklistItem)
    (tid zone : String) (m : ChecklistItem) :
    msFields (insertRelative items tid zone m).1
      ≤ {itemFields m} + msFields m.children + msFields items := by
  induction items, tid, zone, m using insertRelative.induct with
  | case1 tid zone m =>
    rw [insertRelative]
    simp
  | case2 tid zone m it rest hbeq h₁ =>
    rw [insertRelative]
    simp only [hbeq, h₁, if_true]
    simp only [msFields_cons]
    exact le_of_eq (by abel)
  | case3 tid zone m it rest hbeq h₁ h₂ =>
    rw [insertRelative]
    simp [hbeq, h₁, h₂]
    simp only [msFields_cons, ← Multiset.singleton_add]
    exact le_of_eq (by abel)
  | case4 tid zone m it rest hbeq h₁ h₂ h₃ =>
    rw [insertRelative]
    simp [hbeq, h₁, h₂, h₃]
    simp only [msFields_cons, msFields_append, msFields_nil,
      itemFields_setChildren, ChecklistItem.children_setChildren,
      ← Multiset.singleton_add]
    exact le_of_eq (by abel)
  | case5 tid zone m it rest hbeq h₁ h₂ h₃ =>
    rw [insertRelative]
    simp [hbeq, h₁, h₂, h₃]
    simp only [msFields_cons, ← Multiset.singleton_add]
    calc {itemFields it} + msFields it.children + msFields rest
        ≤ ({itemFields m} + msFields m.children)
          + ({itemFields it} + msFields it.children + msFields rest) :=
          le_add_self
      _ = {itemFields m} + msFields m.children
          + ({itemFields it} + (msFields it.children + msFields rest)) := by abel
  | case6 tid zone m it rest hbeq cs heq ih =>
    rw [insertRelative]
    rw [heq] at ih
    simp only at ih
    simp [hbeq, heq]
    simp only [msFields_cons, itemFields_setChildren,
      ChecklistItem.children_setChildren, ← Multiset.singleton_add]
    calc {itemFields it} + msFields cs + msFields rest
        ≤ {itemFields it}
          + ({itemFields m} + msFields m.children + msFields it.children)
          + msFields rest := by
          exact add_le_add (add_le_add (le_refl _) ih) (le_refl _)
      _ = {itemFields m} + msFields m.children
          + ({itemFields it} + (msFields it.children + msFields rest)) := by abel
  | case7 tid zone m it rest hbeq cs heq r b heq₂ ih₁ ih₂ =>
    rw [insertRelative]
    rw [heq₂] at ih₂
    simp only at ih₂
    simp [hbeq, heq, heq₂]
    simp only [msFields_cons, ← Multiset.singleton_add]
    calc {itemFields it} + msFields it.children + msFields r
        ≤ {itemFields it} + msFields it.children
          + ({itemFields m} + msFields m.children + msFields rest) :=
          add_le_add (le_refl _) ih₂
      _ = {itemFields m} + msFields m.children
          + ({itemFields it} + (msFields it.children + msFields rest)) := by abel

/-- The `handle_drop` operation never invents nodes: every node of the result, with all its
fields, comes from the original forest. -/
theorem handleDrop_msFields_le (items : List ChecklistItem) (s : String)
    (t : Option String) (zone : String) :
    msFields (handleDrop items s t zone) ≤ msFields items := by
  simp only [handleDrop]
  by_cases hr : (match t with
    | some u => decide (u ≠ "") && isDescendant items s u
    | none => false) = true
  · rw [if_pos hr]
  · rw [if_neg hr]
    cases hfar : findAndRemove items s with
    | none => exact le_refl _
    | some p =>
      cases p with
      | mk m rest =>
        have hsplit := findAndRemove_msFields items s m rest hfar
        have happ : msFields (rest ++ [m]) = msFields items := by
          rw [msFields_append, msFields_cons, hsplit]
          simp only [msFields_nil]
          abel
        cases t with
        | none => exact le_of_eq happ
        | some u =>
          by_cases hz : (zone == "end") = true
          · simp only [hz, if_true]
            exact le_of_eq happ
          · simp only [hz, if_false]
            have := insertRelative_msFields_le rest u zone m
            rw [hsplit]
            exact le_trans this (le_of_eq (by abel))

end ChecklistView

/-- C10 counterexample: indenting "b" under its preceding sibling "a" leaves
"a" present but with a different children list, so a structural edit does not
keep every present item's children unchanged. -/
theorem C10_indent_changes_parent_children :
    ChecklistView.indentInModel
        [ChecklistItem.mk "a" "" 0 false [], ChecklistItem.mk "b" "" 0 false []]
        "b"
      = some [ChecklistItem.mk "a" "" 0 false [ChecklistItem.mk "b" "" 0 false []]] ∧
    (ChecklistItem.mk "a" "" 0 false [ChecklistItem.mk "b" "" 0 false []]).children
      ≠ (ChecklistItem.mk "a" "" 0 false ([] : List ChecklistItem)).children := by
  constructor
  · simp [ChecklistView.indentInModel, ChecklistView.indentRest]
  · simp

/-- C10 (amended): structural edits never alter item fields — every node of
the resulting forest keeps its id, text, statusNumber and collapsed flag.
Indent and outdent preserve the multiset of per-node fields exactly; relocate
yields a sub-multiset (it can drop the moved subtree, never change a field);
in particular every node of a relocate result has a field-identical source
node.  (Children lists do change at the old and new parent of the moved
subtree, contrary to the claim as stated — see the counterexample.) -/
theorem C10_structural_edits_preserve_fields (items : List ChecklistItem)
    (tid s zone : String) (t : Option String) :
    (∀ F', ChecklistView.indentInModel items tid = some F' →
      msFields F' = msFields items) ∧
    (∀ F', ChecklistView.outdentInModel items tid = some F' →
      msFields F' = msFields items) ∧
    msFields (ChecklistView.handleDrop items s t zone) ≤ msFields items ∧
    (∀ x ∈ allNodes (ChecklistView.handleDrop items s t zone),
      ∃ y ∈ allNodes items, itemFields y = itemFields x) := by
  have hle := ChecklistView.handleDrop_msFields_le items s t zone
  refine ⟨ChecklistView.indent_msFields items tid, ?_, hle, ?_⟩
  · intro F' h
    rw [ChecklistView.outdentInModel] at h
    cases hscan : ChecklistView.outdentScan items tid with
    | no => rw [hscan] at h; cases h
    | here pre x post => rw [hscan] at h; cases h
    | done r =>
      rw [hscan] at h
      simp only [Option.some.injEq] at h
      subst h
      exact ChecklistView.outdent_msFields items tid _ hscan
  · intro x hx
    have hxm : itemFields x ∈ msFields (ChecklistView.handleDrop items s t zone) := by
      simp [msFields, forestFields]
      exact ⟨x, hx, rfl⟩
    have := Multiset.mem_of_le hle hxm
    simp [msFields, forestFields] at this
    rcases this with ⟨y, hy, hyx⟩
    exact ⟨y, hy, hyx⟩

/-- Witness for C10 (amended) on `[a, b]`: the indent of "b", the outdent of
"b" inside `[a [b]]`, and a relocate, all instantiated concretely. -/
theorem C10_structural_edits_preserve_fields_witness :
    msFields [ChecklistItem.mk "a" "" 0 false [ChecklistItem.mk "b" "" 0 false []]]
      = msFields [ChecklistItem.mk "a" "" 0 false [],
                  ChecklistItem.mk "b" "" 0 false []] ∧
    msFields (ChecklistView.handleDrop
        [ChecklistItem.mk "a" "" 0 false [], ChecklistItem.mk "b" "" 0 false []]
        "b" (some "a") "before")
      ≤ msFields [ChecklistItem.mk "a" "" 0 false [],
                  ChecklistItem.mk "b" "" 0 false []] := by
  constructor
  · exact (C10_structural_edits_preserve_fields
      [ChecklistItem.mk "a" "" 0 false [], ChecklistItem.mk "b" "" 0 false []]
      "b" "b" "before" (some "a")).1
      [ChecklistItem.mk "a" "" 0 false [ChecklistItem.mk "b" "" 0 false []]]
      (by simp [ChecklistView.indentInModel, ChecklistView.indentRest])
  · exact (C10_structural_edits_preserve_fields
      [ChecklistItem.mk "a" "" 0 false [], ChecklistItem.mk "b" "" 0 false []]
      "b" "b" "before" (some "a")).2.2.1

/-- The catalog of the C5 scenario: the built-in six-state default
(`DEFAULT_STATES`), bullet `-1` non-cycling, `0..4` cycle-eligible. -/
def statusScenarioChecklist : Checklist :=
  { name := "T", states := DEFAULT_STATES, items := [], default_state_number := 0 }

theorem statusScenario_cycleable :
    statusScenarioChecklist.cycleable_states
      = [⟨0, "To Do", "#F44336", "empty", true⟩,
         ⟨1, "Done", "#4CAF50", "check", true⟩,
         ⟨2, "Waiting", "#9C27B0", "clock", true⟩,
         ⟨3, "On Hold", "#FFC107", "minus", true⟩,
         ⟨4, "Cancelled", "#757575", "x", true⟩] := by
  rw [Checklist.cycleable_states]
  rw [show (statusScenarioChecklist.states.filter
      fun s => decide (0 ≤ s.number) && s.in_cycle)
    = [⟨0, "To Do", "#F44336", "empty", true⟩, ⟨1, "Done", "#4CAF50", "check", true⟩,
       ⟨2, "Waiting", "#9C27B0", "clock", true⟩, ⟨3, "On Hold", "#FFC107", "minus", true⟩,
       ⟨4, "Cancelled", "#757575", "x", true⟩] from rfl]
  exact List.mergeSort_of_sorted (by decide)

/-- C5: with the default six-state catalog and an item at status 0 whose last
click time is 0: a click at time 2 (elapsed > 1.0, which also models "no
prior click") smart-jumps to status 1; a click 0.3 later cycles to 2; a click
another 0.3 later cycles to 3; and a long-press (held ≥ 0.5, the 500 ms
timer) on an item at -1 sets status 0. -/
theorem C5_status_cycler_scenario :
    ItemWidget.onIndicatorClick (some statusScenarioChecklist) 0 0 2 = (1, 2) ∧
    ItemWidget.onIndicatorClick (some statusScenarioChecklist) 1 2 (2 + 3/10)
      = (2, 2 + 3/10) ∧
    ItemWidget.onIndicatorClick (some statusScenarioChecklist) 2 (2 + 3/10)
      (2 + 6/10) = (3, 2 + 6/10) ∧
    ItemWidget.longPressFires (1/2) = true ∧
    ItemWidget.onIndicatorLong (some statusScenarioChecklist) (-1) = 0 := by
  refine ⟨?_, ?_, ?_, by norm_num [ItemWidget.longPressFires], rfl⟩
  · rw [ItemWidget.onIndicatorClick]
    rw [show ((0 : Int) == -1) = false from rfl]
    rw [if_neg (by simp)]
    rw [if_pos (by norm_num)]
    rfl
  · rw [ItemWidget.onIndicatorClick]
    rw [show ((1 : Int) == -1) = false from rfl]
    rw [if_neg (by simp)]
    rw [if_neg (by norm_num)]
    simp only [Checklist.next_checkbox_state]
    rw [statusScenario_cycleable]
    rfl
  · rw [ItemWidget.onIndicatorClick]
    rw [show ((2 : Int) == -1) = false from rfl]
    rw [if_neg (by simp)]
    rw [if_neg (by norm_num)]
    simp only [Checklist.next_checkbox_state]
    rw [statusScenario_cycleable]
    rfl

/-- C9 counterexample: with the default catalog, an item at the unresolvable
status 99 renders with the fixed fallback color `#888888`, not the catalog's
status-0 color `#F44336` (the fallback symbol happens to coincide). -/
theorem C9_fallback_differs_from_status0 :
    statusScenarioChecklist.state_by_number 99 = none ∧
    statusScenarioChecklist.state_by_number 0
      = some ⟨0, "To Do", "#F44336", "empty", true⟩ ∧
    ItemWidget.appliedState (some statusScenarioChecklist) 99
      = ("#888888", "empty") ∧
    ItemWidget.appliedState (some statusScenarioChecklist) 99
      ≠ ("#F44336", "empty") := by
  refine ⟨rfl, rfl, rfl, ?_⟩
  intro hcon
  rw [show ItemWidget.appliedState (some statusScenarioChecklist) 99
      = ("#888888", "empty") from rfl] at hcon
  simp at hcon

/-- C9 (amended): an item whose `statusNumber` resolves to no catalog entry is
rendered with the fixed built-in fallback — color `#888888`, symbol `empty` —
independently of the catalog's status-0 definition. -/
theorem C9_unresolvable_status_renders_fixed_fallback (cl : Checklist)
    (n : Int) (h : cl.state_by_number n = none) :
    ItemWidget.appliedState (some cl) n = ("#888888", "empty") := by
  simp [ItemWidget.appliedState, h]

/-- Witness for C9 (amended) at the default catalog and status 99. -/
theorem C9_unresolvable_status_renders_fixed_fallback_witness :
    statusScenarioChecklist.state_by_number 99 = none ∧
    ItemWidget.appliedState (some statusScenarioChecklist) 99
      = ("#888888", "empty") :=
  ⟨rfl, C9_unresolvable_status_renders_fixed_fallback statusScenarioChecklist 99 rfl⟩

/-- A minimal legacy document: one item whose `state` is the string tag
`"waiting"`, and no `<states>` section (so the default catalog applies). -/
def legacyWaitingDoc : Elem :=
  Elem.mk "checklist" [("name", "L")]
    [Elem.mk "items" []
      [Elem.mk "item" [("id", "i1"), ("text", "t"), ("state", "waiting")] []]]

/-- C6: `load` upgrades per-item legacy string statuses by the fixed mapping
`todo→0, done→1, waiting→2, cancelled→4` (the tags are not parseable as
integers, so the fallback mapping applies), legacy state definitions get the
fixed per-tag symbol (`waiting→clock`, …), and the scenario document — an
item with `state="waiting"` and no numeric attribute — loads to
`statusNumber = 2` whose catalog symbol is `"clock"`. -/
theorem C6_legacy_string_status_upgrade :
    XmlStore.itemsFromList [Elem.mk "item" [("id", "i"), ("state", "todo")] []]
      = [ChecklistItem.mk "i" "" 0 false []] ∧
    XmlStore.itemsFromList [Elem.mk "item" [("id", "i"), ("state", "done")] []]
      = [ChecklistItem.mk "i" "" 1 false []] ∧
    XmlStore.itemsFromList [Elem.mk "item" [("id", "i"), ("state", "waiting")] []]
      = [ChecklistItem.mk "i" "" 2 false []] ∧
    XmlStore.itemsFromList [Elem.mk "item" [("id", "i"), ("state", "cancelled")] []]
      = [ChecklistItem.mk "i" "" 4 false []] ∧
    XmlStore.statesFromList [Elem.mk "state" [("id", "todo")] []] []
      = .ok [⟨0, "Todo", "#888888", "empty", true⟩] ∧
    XmlStore.statesFromList [Elem.mk "state" [("id", "done")] []] []
      = .ok [⟨1, "Done", "#888888", "check", true⟩] ∧
    XmlStore.statesFromList [Elem.mk "state" [("id", "waiting")] []] []
      = .ok [⟨2, "Waiting", "#888888", "clock", true⟩] ∧
    XmlStore.statesFromList [Elem.mk "state" [("id", "cancelled")] []] []
      = .ok [⟨4, "Cancelled", "#888888", "square", true⟩] ∧
    XmlStore.loadChecklist (some legacyWaitingDoc)
      = .ok { name := "L",
              states := DEFAULT_STATES.map
                fun s => ⟨s.number, s.label, s.color, s.symbol, true⟩,
              items := [ChecklistItem.mk "i1" "t" 2 false []],
              default_state_number := 0 } ∧
    (Checklist.state_by_number
        { name := "L",
          states := DEFAULT_STATES.map
            fun s => ⟨s.number, s.label, s.color, s.symbol, true⟩,
          items := [ChecklistItem.mk "i1" "t" 2 false []],
          default_state_number := 0 } 2).map (fun s => s.symbol)
      = some "clock" := by
  refine ⟨?_, ?_, ?_, ?_, rfl, rfl, rfl, rfl, ?_, rfl⟩
  · rw [XmlStore.itemsFromList, XmlStore.itemsFromList]
    rfl
  · rw [XmlStore.itemsFromList, XmlStore.itemsFromList]
    rfl
  · rw [XmlStore.itemsFromList, XmlStore.itemsFromList]
    rfl
  · rw [XmlStore.itemsFromList, XmlStore.itemsFromList]
    rfl
  · have hitems : XmlStore.itemsFromList
        [Elem.mk "item" [("id", "i1"), ("text", "t"), ("state", "waiting")] []]
        = [ChecklistItem.mk "i1" "t" 2 false []] := by
      rw [XmlStore.itemsFromList, XmlStore.itemsFromList]
      rfl
    calc XmlStore.loadChecklist (some legacyWaitingDoc)
        = .ok { name := "L",
                states := DEFAULT_STATES.map
                  fun s => ⟨s.number, s.label, s.color, s.symbol, true⟩,
                items := XmlStore.itemsFromList
                  [Elem.mk "item" [("id", "i1"), ("text", "t"), ("state", "waiting")] []],
                default_state_number := 0 } := rfl
      _ = _ := by rw [hitems]

/-- C4 counterexample: on unparsable input (`etree.parse` raises, modelled as
`none`) `load_checklist` propagates the error — it does not return an empty
checklist with the default catalog (nor any checklist). -/
theorem C4_unparsable_input_propagates :
    XmlStore.loadChecklist none = .error () ∧
    XmlStore.loadChecklist none
      ≠ .ok { name := "Untitled",
              states := DEFAULT_STATES.map
                fun s => ⟨s.number, s.label, s.color, s.symbol, true⟩,
              items := [], default_state_number := 0 } := by
  refine ⟨rfl, ?_⟩
  intro h
  rw [show XmlStore.loadChecklist none = .error () from rfl] at h
  cases h

/-- C4 (amended): for a parseable document whose root has no `<states>` and
no `<items>` child, `load_checklist` does not fail: it returns a checklist
with the built-in default catalog and no items (name and default status read
from the root's attributes).  An unparsable document instead propagates the
parse error — see the counterexample. -/
theorem C4_missing_structure_defaults (attrs : List (String × String))
    (kids : List Elem)
    (hs : (Elem.mk "checklist" attrs kids).findTag "states" = none)
    (hi : (Elem.mk "checklist" attrs kids).findTag "items" = none) :
    XmlStore.loadChecklist (some (Elem.mk "checklist" attrs kids))
      = .ok { name := (Elem.mk "checklist" attrs kids).getD "name" "Untitled",
              states := DEFAULT_STATES.map
                fun s => ⟨s.number, s.label, s.color, s.symbol, true⟩,
              items := [],
              default_state_number :=
                match int_of_string
                    ((Elem.mk "checklist" attrs kids).getD "default_state" "0") with
                | some n => n
                | none => 0 } := by
  simp only [XmlStore.loadChecklist, hs, hi]
  rfl

/-- Witness for C4 (amended) at a structureless one-attribute document. -/
theorem C4_missing_structure_defaults_witness :
    (Elem.mk "checklist" [("name", "W")] []).findTag "states" = none ∧
    (Elem.mk "checklist" [("name", "W")] []).findTag "items" = none ∧
    XmlStore.loadChecklist (some (Elem.mk "checklist" [("name", "W")] []))
      = .ok { name := (Elem.mk "checklist" [("name", "W")] []).getD "name" "Untitled",
              states := DEFAULT_STATES.map
                fun s => ⟨s.number, s.label, s.color, s.symbol, true⟩,
              items := [],
              default_state_number :=
                match int_of_string
                    ((Elem.mk "checklist" [("name", "W")] []).getD "default_state" "0") with
                | some n => n
                | none => 0 } :=
  ⟨rfl, rfl, C4_missing_structure_defaults [("name", "W")] [] rfl rfl⟩

/-! ## Correctness of the decimal codec -/

theorem natToRevDigits_ne_nil (n : Nat) : natToRevDigits n ≠ [] := by
  rw [natToRevDigits]
  split
  all_goals simp

theorem natToRevDigits_mem (n : Nat) :
    ∀ c ∈ natToRevDigits n, ∃ d, d < 10 ∧ c = Char.ofNat (d + 48) := by
  induction n using Nat.strong_induction_on with
  | _ n ih =>
    rw [natToRevDigits]
    split
    · intro c hc
      simp at hc
      exact ⟨n, by omega, hc⟩
    · intro c hc
      rcases List.mem_cons.mp hc with hc | hc
      · exact ⟨n % 10, by omega, hc⟩
      · exact ih (n / 10) (by omega) c hc

theorem digitVal_ofNat (d : Nat) (h : d < 10) :
    digitVal (Char.ofNat (d + 48)) = some d := by
  interval_cases d
  all_goals rfl

theorem digit_char_not_sign (d : Nat) (h : d < 10) :
    Char.ofNat (d + 48) ≠ '-' ∧ Char.ofNat (d + 48) ≠ '+' := by
  interval_cases d
  all_goals exact ⟨by decide, by decide⟩

theorem parseDigitsAcc_append (l₁ l₂ : List Char) :
    ∀ acc, parseDigitsAcc acc (l₁ ++ l₂)
      = match parseDigitsAcc acc l₁ with
        | some a => parseDigitsAcc a l₂
        | none => none := by
  induction l₁ with
  | nil => intro acc; rfl
  | cons c cs ih =>
    intro acc
    cases hd : digitVal c with
    | some d =>
      have h1 : parseDigitsAcc acc ((c :: cs) ++ l₂)
          = parseDigitsAcc (acc * 10 + d) (cs ++ l₂) := by
        rw [List.cons_append, parseDigitsAcc, hd]
      have h2 : parseDigitsAcc acc (c :: cs)
          = parseDigitsAcc (acc * 10 + d) cs := by
        rw [parseDigitsAcc, hd]
      rw [h1, h2, ih]
    | none =>
      have h1 : parseDigitsAcc acc ((c :: cs) ++ l₂) = none := by
        rw [List.cons_append, parseDigitsAcc, hd]
      have h2 : parseDigitsAcc acc (c :: cs) = none := by
        rw [parseDigitsAcc, hd]
      rw [h1, h2]

theorem parseDigitsAcc_revDigits (n : Nat) :
    ∀ acc, parseDigitsAcc acc (natToRevDigits n).reverse
      = some (acc * 10 ^ (natToRevDigits n).length + n) := by
  induction n using Nat.strong_induction_on with
  | _ n ih =>
    intro acc
    rw [natToRevDigits]
    split
    · rename_i hlt
      simp only [List.reverse_singleton, parseDigitsAcc,
        digitVal_ofNat n (by omega)]
      simp
    · rename_i hge
      rw [List.reverse_cons, parseDigitsAcc_append, ih (n / 10) (by omega) acc]
      simp only [parseDigitsAcc, digitVal_ofNat (n % 10) (by omega),
        List.length_cons]
      congr 1
      rw [pow_succ]
      have h10 : 10 * (n / 10) + n % 10 = n := by omega
      ring_nf
      omega

theorem parseNatChars_revDigits (n : Nat) :
    parseNatChars (natToRevDigits n).reverse = some n := by
  have hne : (natToRevDigits n).reverse ≠ [] := by
    intro h
    exact natToRevDigits_ne_nil n (by simpa using congrArg List.reverse h)
  obtain ⟨c, cs, hcons⟩ : ∃ c cs, (natToRevDigits n).reverse = c :: cs := by
    cases h : (natToRevDigits n).reverse with
    | nil => exact absurd h hne
    | cons c cs => exact ⟨c, cs, rfl⟩
  rw [hcons, parseNatChars, ← hcons]
  · have := parseDigitsAcc_revDigits n 0
    simpa using this
  · simp

/-- Unfolding of `int_of_string` on an explicit character list. -/
theorem int_of_string_cons (c : Char) (rest : List Char) :
    int_of_string (String.mk (c :: rest))
      = if c = '-' then (parseNatChars rest).map (fun n => -(n : Int))
        else if c = '+' then (parseNatChars rest).map (fun n => (n : Int))
        else (parseNatChars (c :: rest)).map (fun n => (n : Int)) := rfl

/-- The decimal codec round trip: parsing a printed integer restores it. -/
theorem int_of_string_intToStr (i : Int) :
    int_of_string (intToStr i) = some i := by
  by_cases hneg : i < 0
  · rw [intToStr, if_pos hneg, int_of_string_cons]
    rw [if_pos rfl]
    rw [parseNatChars_revDigits]
    have habs : ((i.natAbs : Int)) = -i := by omega
    simp [habs]
  · rw [intToStr, if_neg hneg, natToStr]
    have hne : (natToRevDigits i.toNat).reverse ≠ [] := by
      intro h
      exact natToRevDigits_ne_nil i.toNat (by simpa using congrArg List.reverse h)
    obtain ⟨c, cs, hcons⟩ : ∃ c cs, (natToRevDigits i.toNat).reverse = c :: cs := by
      cases h : (natToRevDigits i.toNat).reverse with
      | nil => exact absurd h hne
      | cons c cs => exact ⟨c, cs, rfl⟩
    have hcmem : c ∈ natToRevDigits i.toNat := by
      have : c ∈ (natToRevDigits i.toNat).reverse := by
        rw [hcons]; exact List.mem_cons_self _ _
      simpa using this
    obtain ⟨d, hd10, hcd⟩ := natToRevDigits_mem i.toNat c hcmem
    obtain ⟨hnm, hnp⟩ := digit_char_not_sign d hd10
    rw [hcons, int_of_string_cons]
    have hnm' : ¬ c = '-' := by rw [hcd]; exact hnm
    have hnp' : ¬ c = '+' := by rw [hcd]; exact hnp
    rw [if_neg hnm', if_neg hnp', ← hcons, parseNatChars_revDigits]
    have htn : ((i.toNat : Int)) = i := Int.toNat_of_nonneg (by omega)
    simp [htn]

/-- Loading one saved `<state>` element appends exactly the original state. -/
theorem statesFromList_cons_save (s : ChecklistState) (restEls : List Elem)
    (acc : List ChecklistState) :
    XmlStore.statesFromList (XmlStore.stateToXml s :: restEls) acc
      = XmlStore.statesFromList restEls (acc ++ [s]) := by
  cases s with
  | mk num lab col sym cyc =>
    cases cyc with
    | false =>
      calc XmlStore.statesFromList
            (XmlStore.stateToXml ⟨num, lab, col, sym, false⟩ :: restEls) acc
          = (match int_of_string (intToStr num) with
             | none => Except.error ()
             | some n => XmlStore.statesFromList restEls
                 (acc ++ [⟨n, lab, col, sym, false⟩])) := rfl
        _ = XmlStore.statesFromList restEls (acc ++ [⟨num, lab, col, sym, false⟩]) := by
          rw [int_of_string_intToStr]
    | true =>
      calc XmlStore.statesFromList
            (XmlStore.stateToXml ⟨num, lab, col, sym, true⟩ :: restEls) acc
          = (match int_of_string (intToStr num) with
             | none => Except.error ()
             | some n => XmlStore.statesFromList restEls
                 (acc ++ [⟨n, lab, col, sym, true⟩])) := rfl
        _ = XmlStore.statesFromList restEls (acc ++ [⟨num, lab, col, sym, true⟩]) := by
          rw [int_of_string_intToStr]

/-- Loading the saved state list restores it. -/
theorem statesFromList_save (states : List ChecklistState) :
    ∀ acc, XmlStore.statesFromList (states.map XmlStore.stateToXml) acc
      = .ok (acc ++ states) := by
  induction states with
  | nil =>
    intro acc
    simp [XmlStore.statesFromList]
  | cons s rest ih =>
    intro acc
    rw [List.map_cons, statesFromList_cons_save, ih]
    simp

/-- Loading the saved item forest restores it. -/
theorem itemsFromList_itemsToXml (items : List ChecklistItem) :
    XmlStore.itemsFromList (XmlStore.itemsToXml items) = items := by
  induction items using XmlStore.itemsToXml.induct with
  | case1 =>
    rw [XmlStore.itemsToXml, XmlStore.itemsFromList]
  | case2 it rest ih₁ ih₂ =>
    cases it with
    | mk i t n c cs =>
      simp only [ChecklistItem.children_mk] at ih₁
      cases c with
      | false =>
        have hmid : XmlStore.itemsFromList
            (XmlStore.itemsToXml (ChecklistItem.mk i t n false cs :: rest))
            = ChecklistItem.mk i t
                (match int_of_string (intToStr n) with
                 | some sn => sn
                 | none => XmlStore.lookupD XmlStore.OLD_ID_TO_NUMBER (intToStr n) 0)
                false (XmlStore.itemsFromList (XmlStore.itemsToXml cs))
              :: XmlStore.itemsFromList (XmlStore.itemsToXml rest) := by
          rw [XmlStore.itemsToXml, XmlStore.itemsFromList]
          simp [Elem.getD, Elem.get]
        rw [hmid, int_of_string_intToStr, ih₁, ih₂]
      | true =>
        have hmid : XmlStore.itemsFromList
            (XmlStore.itemsToXml (ChecklistItem.mk i t n true cs :: rest))
            = ChecklistItem.mk i t
                (match int_of_string (intToStr n) with
                 | some sn => sn
                 | none => XmlStore.lookupD XmlStore.OLD_ID_TO_NUMBER (intToStr n) 0)
                true (XmlStore.itemsFromList (XmlStore.itemsToXml cs))
              :: XmlStore.itemsFromList (XmlStore.itemsToXml rest) := by
          rw [XmlStore.itemsToXml, XmlStore.itemsFromList]
          simp [Elem.getD, Elem.get]
        rw [hmid, int_of_string_intToStr, ih₁, ih₂]

/-- C3 counterexample: a checklist whose state catalog is empty does not
round-trip — `load` substitutes the built-in default catalog for the saved
empty `<states>` section, so `load(save(x)) ≠ x` there. -/
theorem C3_empty_catalog_not_roundtripped :
    XmlStore.loadChecklist (some (XmlStore.saveChecklist
        { name := "E", states := [], items := [], default_state_number := 0 }))
      = .ok { name := "E",
              states := DEFAULT_STATES.map
                fun s => ⟨s.number, s.label, s.color, s.symbol, true⟩,
              items := [], default_state_number := 0 } ∧
    XmlStore.loadChecklist (some (XmlStore.saveChecklist
        { name := "E", states := [], items := [], default_state_number := 0 }))
      ≠ .ok { name := "E", states := [], items := [], default_state_number := 0 } := by
  have hload : XmlStore.loadChecklist (some (XmlStore.saveChecklist
      { name := "E", states := [], items := [], default_state_number := 0 }))
      = .ok { name := "E",
              states := DEFAULT_STATES.map
                fun s => ⟨s.number, s.label, s.color, s.symbol, true⟩,
              items := [], default_state_number := 0 } := by
    simp only [XmlStore.loadChecklist, XmlStore.saveChecklist, Elem.findTag]
    simp [statesFromList_save ([] : List ChecklistState) [],
      itemsFromList_itemsToXml, int_of_string_intToStr, Elem.getD, Elem.get,
      XmlStore.itemsFromXml, XmlStore.statesFromList, DEFAULT_STATES]
  refine ⟨hload, ?_⟩
  rw [hload]
  intro hcon
  simp [DEFAULT_STATES] at hcon

/-- C3 (amended): for every checklist whose state catalog is nonempty,
`load(save(x))` reproduces `x` exactly: identical name, identical state
definitions (number, label, color, symbol, cycle-membership), identical
default status number, and identical item trees (ids, text, status numbers,
collapsed flags, and parent/child/sibling order).  (A checklist with an empty
catalog comes back with the built-in default catalog instead — see the
counterexample.) -/
theorem C3_load_save_roundtrip (cl : Checklist) (h : cl.states ≠ []) :
    XmlStore.loadChecklist (some (XmlStore.saveChecklist cl)) = .ok cl := by
  cases cl with
  | mk n s i d =>
    simp only [XmlStore.loadChecklist, XmlStore.saveChecklist, Elem.findTag]
    simp only at h
    simp [statesFromList_save s [], itemsFromList_itemsToXml,
      int_of_string_intToStr, Elem.getD, Elem.get, XmlStore.itemsFromXml, h]

/-- Witness for C3 at a two-item checklist (one collapsed child, a non-cycle
state, a negative state number, a nonzero default). -/
theorem C3_load_save_roundtrip_witness :
    ({ name := "W",
       states := [⟨-1, "Bullet", "#bbbbbb", "bullet", false⟩,
                  ⟨2, "Waiting", "#9C27B0", "clock", true⟩],
       items := [ChecklistItem.mk "a" "ta" 2 false
                   [ChecklistItem.mk "b" "tb" (-1) true []]],
       default_state_number := 2 } : Checklist).states ≠ [] ∧
    XmlStore.loadChecklist (some (XmlStore.saveChecklist
        { name := "W",
          states := [⟨-1, "Bullet", "#bbbbbb", "bullet", false⟩,
                     ⟨2, "Waiting", "#9C27B0", "clock", true⟩],
          items := [ChecklistItem.mk "a" "ta" 2 false
                      [ChecklistItem.mk "b" "tb" (-1) true []]],
          default_state_number := 2 }))
      = .ok { name := "W",
              states := [⟨-1, "Bullet", "#bbbbbb", "bullet", false⟩,
                         ⟨2, "Waiting", "#9C27B0", "clock", true⟩],
              items := [ChecklistItem.mk "a" "ta" 2 false
                          [ChecklistItem.mk "b" "tb" (-1) true []]],
              default_state_number := 2 } := by
  refine ⟨by simp, ?_⟩
  exact C3_load_save_roundtrip _ (by simp)
